/-
  Verification of the image-recovery pipeline of the _knots repository.

  The Python sources embedded here:
    scripts/03_build_image_manifest.py     (candidate resolver, unique worklist)
    scripts/04_fetch_and_dedup_images.py   (fetch_url variant, persist with re-fetch)
    scripts/04_fetch_and_dedupe_images.py  (fetch/fetch_once variant, persist from kept bytes)
    scripts/04c_fetch_images_wayback.py    (archive fallback resolver)

  Modelling conventions: byte strings are lists of naturals, external library
  calls (hashlib.sha1, mimetypes.guess_extension) are explicit function
  parameters, network transports are injected functions from attempt indices to
  attempt results, and file or network side effects are recorded as explicit
  event lists.  Character-level string functions mirror the Python code on
  ASCII data.
-/
import Mathlib

/-- Byte strings, as produced by HTTP response reads. -/
abbrev ByteSeq : Type := List Nat

/-! ## scripts/03_build_image_manifest.py -/

/-- Python truthiness of an optional string: None and the empty string are falsy. -/
def truthy : Option String → Bool
  | none => false
  | some s => !(s == "")

/-- One character of the regex class backslash-d, restricted to ASCII as in the URLs at hand. -/
def isDig (c : Char) : Bool := c.isDigit

/-- The letter w, case-insensitively (re.IGNORECASE on THUMB_RE). -/
def isWch (c : Char) : Bool := c == 'w' || c == 'W'

/-- The letter i, case-insensitively (re.IGNORECASE on THUMB_RE). -/
def isIch (c : Char) : Bool := c == 'i' || c == 'I'

/-- The lookahead of THUMB_RE: end of string, a question mark, or a hash. -/
def lookaheadOk : List Char → Bool
  | [] => true
  | c :: _ => c == '?' || c == '#'

/-- Whether, right after a hyphen, exactly k digits followed by wi and the
lookahead occur.  Mirrors one alternative of THUMB_RE. -/
def matchK (k : Nat) (s : List Char) : Bool :=
  ((s.take k).length == k) && (s.take k).all isDig &&
    (match s.drop k with
     | w :: i :: rest => isWch w && isIch i && lookaheadOk rest
     | _ => false)

/-- Whether a THUMB_RE match starts at the head of the list: a literal hyphen
followed by a digit run tried greedily from four digits down to two, as the
regex engine does. -/
def matchAt : List Char → Bool
  | c :: rest => c == '-' && (matchK 4 rest || matchK 3 rest || matchK 2 rest)
  | [] => false

/-- Whether THUMB_RE.search would find a match anywhere in the list. -/
def hasMatch : List Char → Bool
  | [] => false
  | c :: cs => matchAt (c :: cs) || hasMatch cs

/-- The replacement token of THUMB_RE.sub. -/
def popupChars : List Char := ("-popup").data

/-- THUMB_RE.sub("-popup", s): left-to-right scan replacing every
non-overlapping match (hyphen, two to four digits, wi) by the popup token.
The scan consumes at least one character per step, so any fuel bounding the
list length makes the result fuel-independent (subGoF_fuel). -/
def subGoF : Nat → List Char → List Char
  | 0, s => s
  | _ + 1, [] => []
  | n + 1, c :: cs =>
    if c == '-' && matchK 4 cs then popupChars ++ subGoF n (cs.drop 6)
    else if c == '-' && matchK 3 cs then popupChars ++ subGoF n (cs.drop 5)
    else if c == '-' && matchK 2 cs then popupChars ++ subGoF n (cs.drop 4)
    else c :: subGoF n cs

/-- THUMB_RE.sub("-popup", s) on a character list. -/
def subChars (s : List Char) : List Char := subGoF s.length s

/-- infer_full_from_thumb from 03_build_image_manifest.py. -/
def infer_full_from_thumb : Option String → Option String
  | none => none
  | some s =>
    if s == "" then none
    else if hasMatch s.data then some (String.mk (subChars s.data))
    else none

/-- choose_download_url from 03_build_image_manifest.py. -/
def choose_download_url (thumb_url full_url inferred_full : Option String) :
    String × String :=
  if truthy full_url then (full_url.getD (""), "full")
  else if truthy inferred_full then (inferred_full.getD (""), "inferred_full")
  else if truthy thumb_url then (thumb_url.getD (""), "thumb")
  else ("", "none")

/-- Python str.strip of a string, as a character list. -/
def stripChars0 (s : String) : List Char :=
  ((s.data.dropWhile Char.isWhitespace).reverse.dropWhile Char.isWhitespace).reverse

/-- The normalisation (img.get(field) or "").strip() or None applied to raw
image attributes in main of 03_build_image_manifest.py; stripping is modelled
on the character list. -/
def normField : Option String → Option String
  | none => none
  | some s =>
    if (stripChars0 s).isEmpty then none else some (String.mk (stripChars0 s))

/-- One img reference as extracted by the upstream parser (only the fields the
manifest pipeline reads). -/
structure ImgTag where
  src : Option String
  linkHref : Option String
deriving DecidableEq

/-- One post record from the JSONL input (only the fields the manifest reads). -/
structure PostRec where
  sourceIndex : Nat
  title : String
  images : List ImgTag
deriving DecidableEq

/-- One occurrence row of work/image_manifest.csv (URL columns; empty string
denotes an absent value, exactly as in the CSV). -/
structure OccRow where
  postIndex : Nat
  postTitle : String
  occIndex : Nat
  thumb : String
  full : String
  inferredFull : String
  chosen : String
  kind : String
deriving DecidableEq

/-- The occurrence row main of 03_build_image_manifest.py writes for one image
of one post. -/
def mkOcc (p : PostRec) (i : Nat) (img : ImgTag) : OccRow :=
  let thumb := normField img.src
  let full := normField img.linkHref
  let inferredFull := infer_full_from_thumb thumb
  let ck := choose_download_url thumb full inferredFull
  { postIndex := p.sourceIndex
    postTitle := p.title
    occIndex := i
    thumb := thumb.getD ("")
    full := full.getD ("")
    inferredFull := inferredFull.getD ("")
    chosen := ck.1
    kind := ck.2 }

/-- All occurrence rows of one post, in document order. -/
def occRowsOfPost (p : PostRec) : List OccRow :=
  (List.range p.images.length).zipWith (fun i img => mkOcc p i img) p.images

/-- The full occurrence CSV produced from the post stream. -/
def manifestRows (posts : List PostRec) : List OccRow :=
  posts.flatMap occRowsOfPost

/-- One value of the unique dictionary of main: kind plus example post data. -/
structure UEntry where
  kind : String
  examplePostIndex : Nat
  examplePostTitle : String
deriving DecidableEq

/-- The insertion step of the unique dictionary: a non-empty chosen URL is
added only when not already a key. -/
def uniqueStep (m : List (String × UEntry)) (o : OccRow) : List (String × UEntry) :=
  if o.chosen != "" && !((m.map Prod.fst).contains o.chosen) then
    m ++ [(o.chosen, ⟨o.kind, o.postIndex, o.postTitle⟩)]
  else m

/-- The unique dictionary built over all occurrence rows, in input order. -/
def buildUnique (occs : List OccRow) : List (String × UEntry) :=
  occs.foldl uniqueStep []

/-- The emitted unique-URL worklist: sorted(unique.items()), keys being
pairwise distinct so the sort is by URL. -/
def worklistOf (occs : List OccRow) : List (String × UEntry) :=
  (buildUnique occs).mergeSort (fun a b => a.1 ≤ b.1)

/-! ## Helpers shared by the step-04 fetch scripts -/

/-- CT_EXT of 04_fetch_and_dedupe_images.py. -/
def ctExt : List (String × String) :=
  [("image/jpeg", ".jpg"), ("image/jpg", ".jpg"), ("image/png", ".png"),
   ("image/gif", ".gif"), ("image/webp", ".webp"), ("image/bmp", ".bmp"),
   ("image/svg+xml", ".svg"), ("image/tiff", ".tif")]

/-- CT_EXT of 04_fetch_and_dedup_images.py (no tiff entry). -/
def ctExtOld : List (String × String) :=
  [("image/jpeg", ".jpg"), ("image/jpg", ".jpg"), ("image/png", ".png"),
   ("image/gif", ".gif"), ("image/webp", ".webp"), ("image/bmp", ".bmp"),
   ("image/svg+xml", ".svg")]

/-- Characters allowed in a URL scheme after the initial letter. -/
def schemeChar (c : Char) : Bool := c.isAlphanum || c == '+' || c == '-' || c == '.'

/-- Remove a leading scheme: part of urlsplit, for ASCII URLs. -/
def stripScheme (s : List Char) : List Char :=
  let pre := s.takeWhile (fun c => c != ':' && c != '/' && c != '?' && c != '#')
  match s.drop pre.length with
  | ':' :: rest =>
    if !pre.isEmpty && (pre.headD ' ').isAlpha && pre.all schemeChar then rest else s
  | _ => s

/-- urlsplit(url).path for ASCII URLs: fragment and query removed, scheme and
network location stripped. -/
def urlsplitPath (url : String) : String :=
  let s := url.data.takeWhile (fun c => c != '#')
  let t := stripScheme s
  let u :=
    match t with
    | '/' :: '/' :: rest => rest.dropWhile (fun c => c != '/' && c != '?')
    | _ => t
  String.mk (u.takeWhile (fun c => c != '?'))

/-- ASCII lowercasing of one character (str.lower on the data at hand). -/
def toLowerCh (c : Char) : Char :=
  if 65 ≤ c.toNat && c.toNat ≤ 90 then Char.ofNat (c.toNat + 32) else c

/-- ASCII lowercasing of a character list. -/
def lowerChars (s : List Char) : List Char := s.map toLowerCh

/-- Python str.strip on both ends. -/
def stripWs (s : List Char) : List Char :=
  ((s.dropWhile Char.isWhitespace).reverse.dropWhile Char.isWhitespace).reverse

/-- content_type.split(";")[0].strip().lower(), the key looked up in CT_EXT. -/
def ctKey (contentType : String) : String :=
  String.mk (lowerChars (stripWs (contentType.data.takeWhile (fun c => c != ';'))))

/-- The image suffixes the URL-based extension guess recognises, in source
order. -/
def imgExts : List String :=
  [".jpg", ".jpeg", ".png", ".gif", ".webp", ".bmp", ".svg", ".tif", ".tiff"]

/-- The URL-path-based fallback of guess_ext, shared by both step-04 variants. -/
def urlExtGuess (url : String) : String :=
  let path := lowerChars (urlsplitPath url).data
  match imgExts.find? (fun e => e.data.isSuffixOf path) with
  | some e => if e == ".jpeg" then ".jpg" else e
  | none => ".bin"

/-- guess_ext of 04_fetch_and_dedupe_images.py; mimetypes.guess_extension is
the injected parameter mimeG (returning none for unknown types). -/
def guess_ext (mimeG : String → Option String) (url : String) (contentType : String) :
    String :=
  if contentType != "" then
    let ct := ctKey contentType
    match ctExt.lookup ct with
    | some e => e
    | none =>
      match mimeG ct with
      | some e => if e == "" then urlExtGuess url else if e == ".jpeg" then ".jpg" else e
      | none => urlExtGuess url
  else urlExtGuess url

/-- guess_ext of 04_fetch_and_dedup_images.py: as above but the mimetypes
result is returned unchanged and the older CT_EXT table is used. -/
def guess_ext_old (mimeG : String → Option String) (url : String) (contentType : String) :
    String :=
  if contentType != "" then
    let ct := ctKey contentType
    match ctExtOld.lookup ct with
    | some e => e
    | none =>
      match mimeG ct with
      | some e => if e == "" then urlExtGuess url else e
      | none => urlExtGuess url
  else urlExtGuess url

/-- Hexadecimal digit test, byte range. -/
def isHexDig (c : Char) : Bool :=
  c.isDigit || (97 ≤ c.toNat && c.toNat ≤ 102) || (65 ≤ c.toNat && c.toNat ≤ 70)

/-- Value of a hexadecimal digit. -/
def hexVal (c : Char) : Nat :=
  if c.isDigit then c.toNat - 48
  else if 97 ≤ c.toNat then c.toNat - 87
  else c.toNat - 55

/-- urllib.parse.unquote restricted to ASCII data: percent escapes become the
denoted byte, everything else passes through. -/
def unquoteChars : List Char → List Char
  | [] => []
  | '%' :: a :: b :: rest =>
    if isHexDig a && isHexDig b then
      Char.ofNat (hexVal a * 16 + hexVal b) :: unquoteChars rest
    else '%' :: unquoteChars (a :: b :: rest)
  | c :: rest => c :: unquoteChars rest

/-- Characters the SAFE_NAME_RE character class keeps. -/
def isSafeChar (c : Char) : Bool := c.isAlphanum || c == '.' || c == '_' || c == '-'

/-- SAFE_NAME_RE.sub("_", s): each maximal run of unsafe characters becomes a
single underscore.  Fuel-indexed scan; each step consumes at least one
character, so fuel equal to the length suffices. -/
def safeSubF : Nat → List Char → List Char
  | 0, s => s
  | _ + 1, [] => []
  | n + 1, c :: cs =>
    if isSafeChar c then c :: safeSubF n cs
    else '_' :: safeSubF n (cs.dropWhile (fun d => !isSafeChar d))

/-- SAFE_NAME_RE.sub("_", s). -/
def safeSub (s : List Char) : List Char := safeSubF s.length s

/-- Suffix after the last slash: rsplit("/", 1)[-1]. -/
def afterLastSlash (s : List Char) : List Char :=
  (s.reverse.takeWhile (fun c => c != '/')).reverse

/-- safe_filename of 04_fetch_and_dedupe_images.py. -/
def safe_filename (urlPath : String) : String :=
  let n0 := unquoteChars (stripWs urlPath.data)
  let n1 := (n0.takeWhile (fun c => c != '?')).takeWhile (fun c => c != '#')
  let n2 := afterLastSlash n1
  let n3 := if n2.isEmpty then ("file").data else n2
  String.mk ((safeSub n3).take 180)

/-- safe_name of 04c_fetch_images_wayback.py (unquote applied after the
basename extraction there). -/
def safe_name (urlPath : String) : String :=
  let n1 := (urlPath.data.takeWhile (fun c => c != '?')).takeWhile (fun c => c != '#')
  let n2 := afterLastSlash n1
  let n3 := if n2.isEmpty then ("file").data else n2
  String.mk ((safeSub (unquoteChars n3)).take 180)

/-! ## Fetch state machines -/

/-- Outcome of one raw urlopen call, as classified by the except clauses of the
Python code; the injected transport maps attempt indices to these. -/
inductive AttemptRes where
  | success (status : Nat) (contentType : String) (body : ByteSeq)
  | httpError (code : Nat) (reason : String)
  | sslError (msg : String)
  | urlError (msg : String)
  | otherError (excName msg : String)
deriving DecidableEq

/-- DownloadResult of 04_fetch_and_dedup_images.py. -/
structure DownloadResult where
  url : String
  ok : Bool
  status : Nat
  sha1 : String := ""
  ext : String := ""
  bytesLen : Nat := 0
  error : String := ""
  contentType : String := ""
  dedupFilename : String := ""
deriving DecidableEq

/-- The error strings produced by the except clauses of fetch_url. -/
def fuErrString : AttemptRes → String
  | .success _ _ _ => ""
  | .httpError code reason => "HTTPError " ++ toString code ++ ": " ++ reason
  | .sslError msg => "Error: SSLError: " ++ msg
  | .urlError msg => "URLError: " ++ msg
  | .otherError n msg => "Error: " ++ n ++ ": " ++ msg

/-- The client-error early return of fetch_url: a 4xx HTTPError is terminal
and keeps its code as the status. -/
def terminal4xx : AttemptRes → Option Nat
  | .httpError code _ => if 400 ≤ code ∧ code < 500 then some code else none
  | _ => none

/-- The retry loop of fetch_url in 04_fetch_and_dedup_images.py at attempt k
with left further attempts allowed after it (the loop runs attempts
0..retries, so the loop test attempt < retries is left > 0).  Returns the
result, the number of attempts performed and the backoff sleeps (in seconds)
in order. -/
def fuGo (hash : ByteSeq → String) (mimeG : String → Option String) (url : String)
    (tr : Nat → AttemptRes) : Nat → Nat → DownloadResult × Nat × List Nat
  | k, left =>
    match tr k with
    | .success st ct b =>
      let digest := hash b
      let ext := guess_ext_old mimeG url ct
      ({ url := url, ok := true, status := st, sha1 := digest, ext := ext,
         bytesLen := b.length, contentType := ct, dedupFilename := digest ++ ext },
       1, [])
    | a =>
      let e := fuErrString a
      match terminal4xx a with
      | some code => ({ url := url, ok := false, status := code, error := e }, 1, [])
      | none =>
        match left with
        | l + 1 =>
          let r := fuGo hash mimeG url tr (k + 1) l
          (r.1, r.2.1 + 1, (k + 1) :: r.2.2)
        | 0 => ({ url := url, ok := false, status := 0, error := e }, 1, [])

/-- fetch_url of 04_fetch_and_dedup_images.py (timeout and user agent are
absorbed by the injected transport). -/
def fetch_url (hash : ByteSeq → String) (mimeG : String → Option String)
    (url : String) (tr : Nat → AttemptRes) (retries : Nat) :
    DownloadResult × Nat × List Nat :=
  fuGo hash mimeG url tr 0 retries

/-- DLResult of 04_fetch_and_dedupe_images.py. -/
structure DLResult where
  url : String
  ok : Bool
  status : Nat
  sha1 : String := ""
  ext : String := ""
  bytesLen : Nat := 0
  error : String := ""
  contentType : String := ""
  data : Option ByteSeq := none
  usedHttpFallback : Bool := false
deriving DecidableEq

/-- The error strings produced by the except clauses of fetch_once. -/
def fErrString : AttemptRes → String
  | .success _ _ _ => ""
  | .httpError code reason => "HTTP " ++ toString code ++ " " ++ reason
  | .sslError msg => "SSL error: " ++ msg
  | .urlError msg => "URL error: " ++ msg
  | .otherError n msg => n ++ ": " ++ msg

/-- fetch_once of 04_fetch_and_dedupe_images.py, applied to the outcome of the
underlying urlopen call. -/
def fetchOnce (hash : ByteSeq → String) (mimeG : String → Option String)
    (url : String) (a : AttemptRes) : DLResult :=
  match a with
  | .success st ct b =>
    { url := url, ok := true, status := st, sha1 := hash b,
      ext := guess_ext mimeG url ct, bytesLen := b.length, contentType := ct,
      data := some b }
  | .httpError code _ => { url := url, ok := false, status := code, error := fErrString a }
  | _ => { url := url, ok := false, status := 0, error := fErrString a }

/-- Substring containment on character lists, for the SSL test of fetch. -/
def containsSub (pat : List Char) : List Char → Bool
  | [] => pat.isEmpty
  | c :: tail => pat.isPrefixOf (c :: tail) || containsSub pat tail

/-- Python substring test s2 in s1. -/
def strContains (s pat : String) : Bool := containsSub pat.data s.data

/-- url.lower().startswith("https://"). -/
def lowerStartsHttps (url : String) : Bool :=
  ("https://").data.isPrefixOf (lowerChars url.data)

/-- The remainder after the first scheme separator. -/
def afterSchemeSep : List Char → Option (List Char)
  | [] => none
  | c :: cs =>
    if [':', '/', '/'].isPrefixOf (c :: cs) then some (cs.drop 2)
    else afterSchemeSep cs

/-- http downgrade of an https URL: "http://" + url.split("://", 1)[1].  The
guard of the caller ensures the separator is present. -/
def toHttpUrl (url : String) : String :=
  match afterSchemeSep url.data with
  | some r => "http://" ++ String.mk r
  | none => "http://"

/-- The retry loop of fetch in 04_fetch_and_dedupe_images.py at attempt k with
left further attempts allowed after it (the loop runs attempts 0..retries, so
the loop test attempt < retries is left > 0); i is the index the injected
transport assigns to the next urlopen call.  Returns the result, the number of
urlopen calls performed and the sleeps (in seconds) in order. -/
def fGo (hash : ByteSeq → String) (mimeG : String → Option String)
    (tr : String → Nat → AttemptRes) (url : String) (force : Bool) :
    Nat → Nat → Nat → DLResult × Nat × List Nat
  | k, i, left =>
    let res := fetchOnce hash mimeG url (tr url i)
    if res.ok then (res, 1, [])
    else
      let e1 := res.error
      if strContains e1 ("SSL") && force && lowerStartsHttps url then
        let hurl := toHttpUrl url
        let res2 := fetchOnce hash mimeG hurl (tr hurl (i + 1))
        if res2.ok then ({ res2 with usedHttpFallback := true }, 2, [])
        else
          let e := e1 ++ " | http-fallback: " ++ res2.error
          match left with
          | l + 1 =>
            let r := fGo hash mimeG tr url force (k + 1) (i + 2) l
            (r.1, r.2.1 + 2, (k + 1) :: r.2.2)
          | 0 => ({ url := url, ok := false, status := 0, error := e }, 2, [k + 1])
      else
        match left with
        | l + 1 =>
          let r := fGo hash mimeG tr url force (k + 1) (i + 1) l
          (r.1, r.2.1 + 1, (k + 1) :: r.2.2)
        | 0 => ({ url := url, ok := false, status := 0, error := e1 }, 1, [k + 1])

/-- fetch of 04_fetch_and_dedupe_images.py (timeout, headers and TLS context
are absorbed by the injected transport). -/
def fetch (hash : ByteSeq → String) (mimeG : String → Option String)
    (tr : String → Nat → AttemptRes) (url : String) (retries : Nat)
    (force : Bool) : DLResult × Nat × List Nat :=
  fGo hash mimeG tr url force 0 0 retries

/-- The download_failures.csv rows of 04_fetch_and_dedupe_images.py: one
(url, status, error) triple per non-ok result, in result order. -/
def failureRows (results : List DLResult) : List (String × Nat × String) :=
  (results.filter (fun r => !r.ok)).map (fun r => (r.url, r.status, r.error))

/-- The download_failures.csv rows of 04_fetch_and_dedup_images.py over its
collected failure list. -/
def failureRowsOld (failures : List DownloadResult) : List (String × Nat × String) :=
  failures.map (fun r => (r.url, r.status, r.error))

/-! ## Persisting results (content-addressed store) -/

/-- Value of the chosen_to_new dictionary: new filename, new public URL,
content hash, byte length, content type. -/
structure Target where
  filename : String
  newUrl : String
  sha1 : String
  bytesLen : Nat
  ctype : String
deriving DecidableEq

/-- Observable side effects of the persist loops. -/
inductive PEvent where
  | netRequest (url : String)
  | writeDedup (name : String) (bytes : ByteSeq)
  | writeRaw (name : String) (bytes : ByteSeq)
deriving DecidableEq

/-- State of the persist loop of 04_fetch_and_dedupe_images.py: files present
in the two directories, the chosen_to_new dictionary, the effect trace, and
the two write counters. -/
structure PState where
  dedupNames : List String
  rawNames : List String
  c2n : List (String × Target)
  events : List PEvent
  dedupWritten : Nat
  rawWritten : Nat
deriving DecidableEq

/-- Initial persist state for given directory contents. -/
def initPState (dedup raw : List String) : PState :=
  { dedupNames := dedup, rawNames := raw, c2n := [], events := [],
    dedupWritten := 0, rawWritten := 0 }

/-- The conditional dedup write of the persist loop: performed only when no
file with that name is present. -/
def dedupWriteStep (s : PState) (name : String) (b : ByteSeq) : PState :=
  if s.dedupNames.contains name then s
  else { s with dedupNames := s.dedupNames ++ [name],
                events := s.events ++ [PEvent.writeDedup name b],
                dedupWritten := s.dedupWritten + 1 }

/-- The conditional raw write of the persist loop: performed only when no file
with that name is present. -/
def rawWriteStep (s : PState) (name : String) (b : ByteSeq) : PState :=
  if s.rawNames.contains name then s
  else { s with rawNames := s.rawNames ++ [name],
                events := s.events ++ [PEvent.writeRaw name b],
                rawWritten := s.rawWritten + 1 }

/-- The body of one ok iteration of the persist loop: dedup write when
absent, raw write when absent, record the chosen_to_new target. -/
def persistOkStep (hostBase : String) (s : PState) (url : String) (r : DLResult)
    (b : ByteSeq) : PState :=
  let dedupName := r.sha1 ++ r.ext
  let s1 := dedupWriteStep s dedupName b
  let rawName0 := safe_filename (urlsplitPath url)
  let rawName := if rawName0 == "" then dedupName else rawName0
  let s2 := rawWriteStep s1 rawName b
  let newUrl := if hostBase != "" then hostBase ++ "/" ++ dedupName else ""
  { s2 with c2n := s2.c2n ++
      [(url, ⟨dedupName, newUrl, r.sha1, r.bytesLen, r.contentType⟩)] }

/-- One iteration of the persist loop of 04_fetch_and_dedupe_images.py
(lines 272-285): skip non-ok or dataless results, otherwise run the write
body.  hostBase is the already-normalised host_prefix. -/
def persistStep (hostBase : String) (s : PState) : String × DLResult → PState
  | (url, r) =>
  match r.data with
  | none => s
  | some b => if !r.ok then s else persistOkStep hostBase s url r b

/-- The persist loop of 04_fetch_and_dedupe_images.py over all results. -/
def persistDedupe (hostBase : String) (results : List (String × DLResult))
    (init : PState) : PState :=
  results.foldl (persistStep hostBase) init

/-- State of the persist loop of 04_fetch_and_dedup_images.py. -/
structure OPState where
  dedupNames : List String
  rawNames : List String
  events : List PEvent
  failures : List DownloadResult
  dedupWritten : Nat
  rawWritten : Nat
deriving DecidableEq

/-- Initial state of the old persist loop. -/
def initOPState (dedup raw : List String) : OPState :=
  { dedupNames := dedup, rawNames := raw, events := [], failures := [],
    dedupWritten := 0, rawWritten := 0 }

/-- One iteration of the persist loop of 04_fetch_and_dedup_images.py
(lines 205-247).  The loop did not keep the fetched bytes, so for every ok
result it re-fetches the URL: once through fetch_url with zero retries (tr
gives that call its attempt outcomes) and once through a direct urlopen (dir
gives its outcome); both are recorded as netRequest events. -/
def oldPersistStep (hash : ByteSeq → String) (mimeG : String → Option String)
    (tr : String → Nat → AttemptRes) (dir : String → AttemptRes)
    (s : OPState) (ur : String × DownloadResult) : OPState :=
  let url := ur.1
  let res := ur.2
  if !res.ok then s
  else
    let needDedup := !(s.dedupNames.contains res.dedupFilename)
    let needRaw := true
    if needDedup || needRaw then
      let rf := fetch_url hash mimeG url (tr url) 0
      let s0 := { s with
        events := s.events ++ List.replicate rf.2.1 (PEvent.netRequest url) }
      if !rf.1.ok then { s0 with failures := s0.failures ++ [rf.1] }
      else
        match dir url with
        | .success _ _ b =>
          let s1 := { s0 with events := s0.events ++ [PEvent.netRequest url] }
          let s2 :=
            if s1.dedupNames.contains res.dedupFilename then s1
            else { s1 with dedupNames := s1.dedupNames ++ [res.dedupFilename],
                           events := s1.events ++
                             [PEvent.writeDedup res.dedupFilename b],
                           dedupWritten := s1.dedupWritten + 1 }
          let rawName0 := safe_filename (urlsplitPath url)
          let rawName := if rawName0 == "" then res.dedupFilename else rawName0
          if s2.rawNames.contains rawName then s2
          else { s2 with rawNames := s2.rawNames ++ [rawName],
                         events := s2.events ++ [PEvent.writeRaw rawName b],
                         rawWritten := s2.rawWritten + 1 }
        | a =>
          { s0 with events := s0.events ++ [PEvent.netRequest url],
                    failures := s0.failures ++
                      [{ url := url, ok := false, status := 0,
                         error := "refetch-bytes: " ++ fErrString a }] }
    else s

/-- The persist loop of 04_fetch_and_dedup_images.py over all results. -/
def oldPersist (hash : ByteSeq → String) (mimeG : String → Option String)
    (tr : String → Nat → AttemptRes) (dir : String → AttemptRes)
    (results : List (String × DownloadResult)) (init : OPState) : OPState :=
  results.foldl (oldPersistStep hash mimeG tr dir) init

/-! ## Mapping expansion (url_map.csv) -/

/-- One row of url_map.csv without its original-URL key. -/
structure RewriteEntry where
  filename : String
  newUrl : String
  sha1 : String
  bytesLen : Nat
  ctype : String
  kind : String
deriving DecidableEq

/-- The mapping value a row derives from its chosen target and chosen kind. -/
def entryOf (t : Target) (kind : String) : RewriteEntry :=
  ⟨t.filename, t.newUrl, t.sha1, t.bytesLen, t.ctype, kind⟩

/-- The four URL columns of an occurrence row, in the order the expansion
loop visits them. -/
def rowFields (r : OccRow) : List String :=
  [r.thumb, r.full, r.inferredFull, r.chosen]

/-- dict.setdefault on an association list: keep an existing binding, append a
new one otherwise. -/
def setdefault (m : List (String × RewriteEntry)) (k : String) (v : RewriteEntry) :
    List (String × RewriteEntry) :=
  if (m.lookup k).isSome then m else m ++ [(k, v)]

/-- The expansion of one occurrence row (04_fetch_and_dedupe_images.py lines
293-301): rows whose chosen URL is empty or has no stored target are skipped;
otherwise every non-empty URL column is setdefault-mapped to the target of the
chosen URL, tagged with the row's chosen kind. -/
def expandRow (c2n : String → Option Target) (m : List (String × RewriteEntry))
    (row : OccRow) : List (String × RewriteEntry) :=
  if row.chosen != "" then
    match c2n row.chosen with
    | some t =>
      (rowFields row).foldl
        (fun m u => if u != "" then setdefault m u (entryOf t row.kind) else m) m
    | none => m
  else m

/-- The full url_map dictionary over the occurrence rows, in input order. -/
def buildMapping (c2n : String → Option Target) (rows : List OccRow) :
    List (String × RewriteEntry) :=
  rows.foldl (expandRow c2n) []

/-- The emitted url_map.csv rows: sorted(mapping.items()), keys distinct. -/
def urlMapRows (c2n : String → Option Target) (rows : List OccRow) :
    List (String × RewriteEntry) :=
  (buildMapping c2n rows).mergeSort (fun a b => a.1 ≤ b.1)

/-! ## scripts/04c_fetch_images_wayback.py -/

/-- Characters urllib.parse.quote never encodes. -/
def unreservedQ (c : Char) : Bool :=
  c.isAlphanum || c == '_' || c == '.' || c == '-' || c == '~'

/-- Uppercase hexadecimal digit of a value below 16. -/
def hexDigitU (n : Nat) : Char :=
  if n < 10 then Char.ofNat (48 + n) else Char.ofNat (55 + n)

/-- UTF-8 encoding of one code point. -/
def utf8Bytes (c : Char) : List Nat :=
  let n := c.toNat
  if n < 128 then [n]
  else if n < 2048 then [192 + n / 64, 128 + n % 64]
  else if n < 65536 then [224 + n / 4096, 128 + (n / 64) % 64, 128 + n % 64]
  else [240 + n / 262144, 128 + (n / 4096) % 64, 128 + (n / 64) % 64, 128 + n % 64]

/-- Percent-escape of one byte, uppercase as quote produces. -/
def pctEncode (b : Nat) : List Char :=
  ['%', hexDigitU (b / 16), hexDigitU (b % 16)]

/-- urllib.parse.quote(s, safe=""). -/
def pyQuote (s : String) : String :=
  String.mk (s.data.flatMap
    (fun c => if unreservedQ c then [c] else (utf8Bytes c).flatMap pctEncode))

/-- The CDX index query URL built by find_wayback_best: only snapshots whose
recorded status code is 200 are requested. -/
def cdxQuery (url : String) : String :=
  "https://web.archive.org/cdx/search/cdx?url=" ++ pyQuote url ++
    "&output=json&filter=statuscode:200&collapse=digest"

/-- The id_ retrieval URL that yields the unwrapped payload of a snapshot. -/
def wbUrl (ts url : String) : String :=
  "https://web.archive.org/web/" ++ ts ++ "id_/" ++ url

/-- The capture timestamp column of one CDX row. -/
def tsOf (r : List String) : String := r.getD 1 ""

/-- Code-point lexicographic strict comparison of character lists, the order
Python string comparison uses. -/
def ltChars : List Char → List Char → Bool
  | [], [] => false
  | [], _ :: _ => true
  | _ :: _, [] => false
  | a :: as, b :: bs =>
    if a.toNat < b.toNat then true
    else if b.toNat < a.toNat then false
    else ltChars as bs

/-- Python string comparison a < b. -/
def pyStrLt (a b : String) : Bool := ltChars a.data b.data

/-- rows.sort(key=r[1], reverse=True); rows[0]: the first row, in original
order, carrying the maximal timestamp (Python sorts are stable). -/
def pickNewest (r0 : List String) (rs : List (List String)) : List String :=
  rs.foldl (fun best r => if pyStrLt (tsOf best) (tsOf r) then r else best) r0

/-- find_wayback_best of 04c_fetch_images_wayback.py, applied to the response
of the CDX query for url: its HTTP status and, when the body was non-empty and
parsed as a JSON list, that list (header row first).  Any malformed row makes
the sort raise, which the except clause turns into None. -/
def find_wayback_best (url : String) (cdxStatus : Nat)
    (cdxJson : Option (List (List String))) : Option String :=
  if cdxStatus != 200 then none
  else
    match cdxJson with
    | none => none
    | some j =>
      match j.drop 1 with
      | [] => none
      | r0 :: rs =>
        if (r0 :: rs).all (fun r => decide (2 ≤ r.length)) then
          some (wbUrl (tsOf (pickNewest r0 rs)) url)
        else none

/-- Observable effects of the wayback loop body. -/
inductive WbEvent where
  | cdxGet (q : String)
  | imgGet (u : String)
  | writeRawWb (name : String) (bytes : ByteSeq)
  | writeDedupWb (name : String) (bytes : ByteSeq)
deriving DecidableEq

/-- Terminal outcome of one wayback loop iteration. -/
inductive WbOutcome where
  | miss
  | wbFail (status : Nat) (wb : String)
  | stored (t : Target)
deriving DecidableEq

/-- One iteration of the wayback main loop (lines 140-172): resolve via the
CDX index; on a miss record a no_wayback_snapshot failure without fetching; on
a hit fetch the snapshot (wbGet gives status, body, content type), and on a
200 with a body write raw and dedup files when absent and record the target. -/
def processUrl (hash : ByteSeq → String) (mimeG : String → Option String)
    (hostBase : String) (u : String) (cdxStatus : Nat)
    (cdxJson : Option (List (List String)))
    (wbGet : String → Nat × ByteSeq × String)
    (rawNames dedupNames : List String) :
    WbOutcome × List WbEvent × List (String × Nat × String) :=
  match find_wayback_best u cdxStatus cdxJson with
  | none => (.miss, [.cdxGet (cdxQuery u)], [(u, 0, "no_wayback_snapshot")])
  | some wb =>
    let g := wbGet wb
    let st := g.1
    let data := g.2.1
    let ctype := g.2.2
    if st != 200 || data.isEmpty then
      (.wbFail st wb, [.cdxGet (cdxQuery u), .imgGet wb],
       [(u, st, "wb_fetch_fail:" ++ wb)])
    else
      let digest := hash data
      let ext := guess_ext mimeG u ctype
      let rawName0 := safe_name (urlsplitPath u)
      let rawName := if ext.data.isSuffixOf rawName0.data then rawName0 else rawName0 ++ ext
      let rawEv :=
        if rawNames.contains rawName then ([] : List WbEvent)
        else [WbEvent.writeRawWb rawName data]
      let dedupName := digest ++ ext
      let dedupEv :=
        if dedupNames.contains dedupName then ([] : List WbEvent)
        else [WbEvent.writeDedupWb dedupName data]
      let newUrl := if hostBase != "" then hostBase ++ "/" ++ dedupName else wb
      (.stored ⟨dedupName, newUrl, digest, data.length, ctype⟩,
       [WbEvent.cdxGet (cdxQuery u), WbEvent.imgGet wb] ++ rawEv ++ dedupEv, [])

/-- A concrete content hash stand-in for closed evaluations; every claim
proved against the hash parameter holds for each choice, witnesses just need
one computable instance. -/
def hashConst : ByteSeq → String := fun b => "h" ++ toString b.length

/-- A concrete mimetypes stand-in knowing no extra types. -/
def mimeNone : String → Option String := fun _ => none

/-- Number of dedup-write events for a given filename in an effect trace. -/
def countDedupWrites (evs : List PEvent) (n : String) : Nat :=
  (evs.filter (fun e => match e with
    | PEvent.writeDedup m _ => m == n
    | _ => false)).length

/-- Whether a persist event is a network request. -/
def isNetEvent : PEvent → Bool
  | PEvent.netRequest _ => true
  | _ => false

/-- The mapping contribution of one occurrence row for one original URL:
some entry when the row is expanded and the URL is one of its non-empty URL
columns, none otherwise.  Characterises first-writer-wins lookups. -/
def rowMaps (c2n : String → Option Target) (row : OccRow) (u : String) :
    Option RewriteEntry :=
  if row.chosen ≠ "" then
    match c2n row.chosen with
    | some t => if u ≠ "" ∧ u ∈ rowFields row then some (entryOf t row.kind) else none
    | none => none
  else none

/-- A transport answering every attempt with HTTP 500, for witnesses. -/
def trServerErr : Nat → AttemptRes := fun _ => .httpError 500 ("Server Error")

/-- The url-indexed form of trServerErr. -/
def trServerErr2 : String → Nat → AttemptRes := fun _ _ => .httpError 500 ("Server Error")

/-- The constant 500 status function, for witnesses. -/
def code500 : Nat → Nat := fun _ => 500

/-- The constant server-error reason, for witnesses. -/
def reasonSE : Nat → String := fun _ => "Server Error"

/-- A transport answering every attempt with a 200 PNG payload, for witnesses. -/
def trOk2 : String → Nat → AttemptRes := fun _ _ => .success 200 ("image/png") [9, 9]

/-- A concrete stored-target table for witnesses: only the full URL of rowW
has been stored. -/
def c2nW : String → Option Target :=
  fun u => if u == "http://a/full" then some ⟨"h.png", "", "h", 3, "image/png"⟩ else none

/-- A concrete occurrence row for witnesses: thumbnail and explicit full URL,
chosen kind full. -/
def rowW : OccRow := OccRow.mk 0 "p" 0 "http://a/thumb" "http://a/full" "" "http://a/full" "full"

/-- The rewrite entry rowW produces for each of its URL columns. -/
def eW : RewriteEntry := ⟨"h.png", "", "h", 3, "image/png", "full"⟩

/-- A snapshot transport answering 200 with a one-byte PNG, for witnesses. -/
def wbGetW : String → Nat × ByteSeq × String := fun _ => (200, [1], "image/png")

/-! ## Lemmas about the unique worklist -/

theorem buildUnique_keys_ne_aux :
    ∀ (occs : List OccRow) (m : List (String × UEntry)),
      (∀ x ∈ m, x.1 ≠ "") → ∀ x ∈ occs.foldl uniqueStep m, x.1 ≠ "" := by
  intro occs
  induction occs with
  | nil => intro m hm; simpa using hm
  | cons o occs ih =>
    intro m hm
    simp only [List.foldl_cons]
    apply ih
    intro x hx
    unfold uniqueStep at hx
    by_cases hc : (o.chosen != "" && !((m.map Prod.fst).contains o.chosen)) = true
    · rw [if_pos hc] at hx
      rcases List.mem_append.mp hx with h | h
      · exact hm x h
      · have hx1 : x = (o.chosen, ⟨o.kind, o.postIndex, o.postTitle⟩) := by
          simpa using h
        subst hx1
        have := (Bool.and_eq_true _ _).mp hc
        simpa using this.1
    · rw [if_neg hc] at hx
      exact hm x hx

theorem buildUnique_nodup_aux :
    ∀ (occs : List OccRow) (m : List (String × UEntry)),
      (m.map Prod.fst).Nodup → ((occs.foldl uniqueStep m).map Prod.fst).Nodup := by
  intro occs
  induction occs with
  | nil => intro m hm; simpa using hm
  | cons o occs ih =>
    intro m hm
    simp only [List.foldl_cons]
    apply ih
    unfold uniqueStep
    by_cases hc : (o.chosen != "" && !((m.map Prod.fst).contains o.chosen)) = true
    · rw [if_pos hc]
      have hnm : o.chosen ∉ m.map Prod.fst := by
        have := (Bool.and_eq_true _ _).mp hc
        have h2 := this.2
        simp only [Bool.not_eq_true'] at h2
        simpa using h2
      have hperm : List.Perm ((m.map Prod.fst) ++ [o.chosen])
          (o.chosen :: m.map Prod.fst) := List.perm_append_singleton _ _
      have : ((m ++ [(o.chosen, (⟨o.kind, o.postIndex, o.postTitle⟩ : UEntry))]).map
          Prod.fst) = (m.map Prod.fst) ++ [o.chosen] := by simp
      rw [this, hperm.nodup_iff]
      exact List.nodup_cons.mpr ⟨hnm, hm⟩
    · rw [if_neg hc]; exact hm

theorem buildUnique_keys_mono :
    ∀ (occs : List OccRow) (m : List (String × UEntry)) (u : String),
      u ∈ m.map Prod.fst → u ∈ (occs.foldl uniqueStep m).map Prod.fst := by
  intro occs
  induction occs with
  | nil => intro m u hu; simpa using hu
  | cons o occs ih =>
    intro m u hu
    simp only [List.foldl_cons]
    apply ih
    unfold uniqueStep
    by_cases hc : (o.chosen != "" && !((m.map Prod.fst).contains o.chosen)) = true
    · rw [if_pos hc]; simp only [List.map_append, List.mem_append]; exact Or.inl hu
    · rw [if_neg hc]; exact hu

theorem buildUnique_mem_aux :
    ∀ (occs : List OccRow) (m : List (String × UEntry)) (o : OccRow),
      o ∈ occs → o.chosen ≠ "" →
      o.chosen ∈ (occs.foldl uniqueStep m).map Prod.fst := by
  intro occs
  induction occs with
  | nil => intro m o ho; simp at ho
  | cons o' occs ih =>
    intro m o ho hne
    rcases List.mem_cons.mp ho with h | h
    · subst h
      simp only [List.foldl_cons]
      apply buildUnique_keys_mono
      unfold uniqueStep
      by_cases hin : o.chosen ∈ m.map Prod.fst
      · have : ((m.map Prod.fst).contains o.chosen) = true := by simpa using hin
        by_cases hc : (o.chosen != "" && !((m.map Prod.fst).contains o.chosen)) = true
        · rw [if_pos hc]; simp only [List.map_append, List.mem_append]; exact Or.inl hin
        · rw [if_neg hc]; exact hin
      · have hc : (o.chosen != "" && !((m.map Prod.fst).contains o.chosen)) = true := by
          have h1 : (o.chosen != "") = true := by simpa using hne
          have h2 : ((m.map Prod.fst).contains o.chosen) = false := by
            rw [Bool.eq_false_iff]
            intro hcon
            exact hin (by simpa using hcon)
          rw [h1, h2]
          rfl
        rw [if_pos hc]
        simp only [List.map_append, List.mem_append]
        right
        simp
    · simp only [List.foldl_cons]
      exact ih _ o h hne

theorem worklist_keys_perm (occs : List OccRow) :
    List.Perm ((worklistOf occs).map Prod.fst) ((buildUnique occs).map Prod.fst) :=
  (List.mergeSort_perm (buildUnique occs) _).map Prod.fst

/-- C4: canonical selection precedence.  An explicit full URL always wins with
kind full; otherwise an inferred full URL wins with kind inferred_full;
otherwise a thumbnail wins with kind thumb; otherwise the selection is empty
with kind none, and a selection of kind none always carries the empty URL, so
it is never a key of the unique fetch worklist (all worklist keys are
non-empty). -/
theorem canonical_precedence :
    (∀ t f i, truthy f = true →
        choose_download_url t f i = (f.getD "", "full"))
  ∧ (∀ t f i, truthy f = false → truthy i = true →
        choose_download_url t f i = (i.getD "", "inferred_full"))
  ∧ (∀ t f i, truthy f = false → truthy i = false → truthy t = true →
        choose_download_url t f i = (t.getD "", "thumb"))
  ∧ (∀ t f i, truthy f = false → truthy i = false → truthy t = false →
        choose_download_url t f i = ("", "none"))
  ∧ (∀ t f i, (choose_download_url t f i).2 = "none" →
        (choose_download_url t f i).1 = "")
  ∧ (∀ occs : List OccRow, ∀ x ∈ worklistOf occs, x.1 ≠ "") := by
  refine ⟨?_, ?_, ?_, ?_, ?_, ?_⟩
  · intro t f i h; simp [choose_download_url, h]
  · intro t f i h1 h2; simp [choose_download_url, h1, h2]
  · intro t f i h1 h2 h3; simp [choose_download_url, h1, h2, h3]
  · intro t f i h1 h2 h3; simp [choose_download_url, h1, h2, h3]
  · intro t f i h
    unfold choose_download_url at h ⊢
    split_ifs at h ⊢ with h1 h2 h3
    · simp at h
    · simp at h
    · simp at h
    · rfl
  · intro occs x hx
    have hx2 : x ∈ buildUnique occs := List.mem_mergeSort.mp hx
    exact buildUnique_keys_ne_aux occs [] (by simp) x hx2

/-- C4 witness: the precedence cases and the worklist-key fact at concrete
inputs. -/
theorem canonical_precedence_witness :
    choose_download_url (some "t") (some "f") (some "i") = ("f", "full")
  ∧ choose_download_url (some "t") none (some "i") = ("i", "inferred_full")
  ∧ choose_download_url (some "t") none none = ("t", "thumb")
  ∧ choose_download_url none none none = ("", "none")
  ∧ (choose_download_url none none none).1 = ""
  ∧ (("u", (⟨"thumb", 0, "p"⟩ : UEntry)) ∈
      worklistOf [OccRow.mk 0 "p" 0 "u" "" "" "u" "thumb"] →
      ("u", (⟨"thumb", 0, "p"⟩ : UEntry)).1 ≠ "") := by
  refine ⟨?_, ?_, ?_, ?_, ?_, ?_⟩
  · exact canonical_precedence.1 _ _ _ (by decide)
  · exact canonical_precedence.2.1 _ _ _ (by decide) (by decide)
  · exact canonical_precedence.2.2.1 _ _ _ (by decide) (by decide) (by decide)
  · exact canonical_precedence.2.2.2.1 _ _ _ (by decide) (by decide) (by decide)
  · exact canonical_precedence.2.2.2.2.1 _ _ _ (by decide)
  · exact fun hx => canonical_precedence.2.2.2.2.2 _ _ hx

/-- C7: worklist deduplication.  For every occurrence stream the emitted
unique-URL worklist has pairwise distinct URL keys, and every non-empty chosen
URL of the stream appears exactly once among them. -/
theorem worklist_unique (occs : List OccRow) :
    ((worklistOf occs).map Prod.fst).Nodup
  ∧ ∀ o ∈ occs, o.chosen ≠ "" →
      ((worklistOf occs).map Prod.fst).count o.chosen = 1 := by
  have hperm := worklist_keys_perm occs
  constructor
  · exact hperm.nodup_iff.mpr (buildUnique_nodup_aux occs [] (by simp))
  · intro o ho hne
    have hmem : o.chosen ∈ (buildUnique occs).map Prod.fst :=
      buildUnique_mem_aux occs [] o ho hne
    have hnd : ((buildUnique occs).map Prod.fst).Nodup :=
      buildUnique_nodup_aux occs [] (by simp)
    rw [hperm.count_eq]
    exact Nat.le_antisymm (List.nodup_iff_count_le_one.mp hnd _)
      (List.count_pos_iff.mpr hmem)

/-- C7 witness: two occurrences sharing one chosen URL yield a worklist in
which that URL appears exactly once. -/
theorem worklist_unique_witness :
    ((worklistOf [OccRow.mk 0 "p" 0 "t1" "u" "" "u" "full",
        OccRow.mk 1 "q" 0 "t2" "u" "" "u" "full"]).map
      Prod.fst).count "u" = 1 := by
  exact (worklist_unique [OccRow.mk 0 "p" 0 "t1" "u" "" "u" "full",
      OccRow.mk 1 "q" 0 "t2" "u" "" "u" "full"]).2
    (OccRow.mk 0 "p" 0 "t1" "u" "" "u" "full") (by simp) (by decide)

/-- C2: divergence of the two fetch variants on a 4xx response.  fetch_url of
04_fetch_and_dedup_images.py returns a terminal failure after exactly one
attempt with no sleeps, recording status 404, as the claim states; but fetch
of 04_fetch_and_dedupe_images.py retries the 404 (three attempts under the
default retry setting of 2, sleeping 1, 2 and 3 seconds) and its failure
ledger row records status 0, not 404. -/
theorem fetch_404_divergence :
    fetch_url hashConst mimeNone ("http://e/x")
        (fun _ => .httpError 404 ("Not Found")) 2
      = ({ url := "http://e/x", ok := false, status := 404,
           error := "HTTPError 404: Not Found" }, 1, [])
  ∧ failureRowsOld [(fetch_url hashConst mimeNone ("http://e/x")
        (fun _ => .httpError 404 ("Not Found")) 2).1]
      = [("http://e/x", 404, "HTTPError 404: Not Found")]
  ∧ fetch hashConst mimeNone (fun _ _ => .httpError 404 ("Not Found"))
        ("http://e/x") 2 false
      = ({ url := "http://e/x", ok := false, status := 0,
           error := "HTTP 404 Not Found" }, 3, [1, 2, 3])
  ∧ failureRows [(fetch hashConst mimeNone (fun _ _ => .httpError 404 ("Not Found"))
        ("http://e/x") 2 false).1]
      = [("http://e/x", 0, "HTTP 404 Not Found")] := by
  refine ⟨by decide, by decide, by decide, by decide⟩

theorem terminal4xx_of_5xx (c : Nat) (r : String) (h : 500 ≤ c) :
    terminal4xx (.httpError c r) = none := by
  simp only [terminal4xx, ite_eq_right_iff]
  intro hc
  omega

theorem fuGo_serverError (hash : ByteSeq → String) (mimeG : String → Option String)
    (url : String) (tr : Nat → AttemptRes) (codes : Nat → Nat) (reasons : Nat → String)
    (htr : ∀ n, tr n = AttemptRes.httpError (codes n) (reasons n))
    (h5 : ∀ n, 500 ≤ codes n ∧ codes n < 600) :
    ∀ (left k : Nat),
      fuGo hash mimeG url tr k left
        = ({ url := url, ok := false, status := 0,
             error := "HTTPError " ++ toString (codes (k + left)) ++ ": "
               ++ reasons (k + left) }, left + 1, List.range' (k + 1) left) := by
  intro left
  induction left with
  | zero =>
    intro k
    rw [fuGo, htr k]
    simp only [fuErrString, terminal4xx_of_5xx _ _ (h5 k).1]
    simp [List.range']
  | succ l ih =>
    intro k
    rw [fuGo, htr k]
    simp only [fuErrString, terminal4xx_of_5xx _ _ (h5 k).1]
    rw [ih (k + 1)]
    have hk : k + 1 + l = k + (l + 1) := by omega
    rw [hk, List.range'_succ]

theorem fGo_serverError (hash : ByteSeq → String) (mimeG : String → Option String)
    (url : String) (tr2 : String → Nat → AttemptRes) (codes : Nat → Nat)
    (reasons : Nat → String)
    (htr : ∀ u n, tr2 u n = AttemptRes.httpError (codes n) (reasons n)) :
    ∀ (left k i : Nat),
      fGo hash mimeG tr2 url false k i left
        = ({ url := url, ok := false, status := 0,
             error := "HTTP " ++ toString (codes (i + left)) ++ " "
               ++ reasons (i + left) }, left + 1, List.range' (k + 1) (left + 1)) := by
  intro left
  induction left with
  | zero =>
    intro k i
    rw [fGo, htr url i]
    simp only [fetchOnce, fErrString]
    simp [List.range']
  | succ l ih =>
    intro k i
    rw [fGo, htr url i]
    simp only [fetchOnce, fErrString]
    simp only [Bool.false_and, Bool.and_false, Bool.if_false_left]
    rw [ih (k + 1) (i + 1)]
    have hi : i + 1 + l = i + (l + 1) := by omega
    simp [hi, List.range'_succ]

/-- C5: retry ceiling and backoff.  Against a transport answering every
attempt with a server-error response, fetch_url of 04_fetch_and_dedup and
fetch of 04_fetch_and_dedupe both perform exactly retries + 1 attempts, with
the sleep before attempt j+1 lasting j times the one-second base delay, and
return a terminal failure whose error field carries the classification of the
last attempt, which is exactly what their failure ledger rows record (the
fetch variant additionally sleeps once after the final attempt). -/
theorem retry_ceiling_backoff (hash : ByteSeq → String) (mimeG : String → Option String)
    (url : String) (tr : Nat → AttemptRes) (tr2 : String → Nat → AttemptRes)
    (codes : Nat → Nat) (reasons : Nat → String) (retries : Nat)
    (htr : ∀ n, tr n = AttemptRes.httpError (codes n) (reasons n))
    (htr2 : ∀ u n, tr2 u n = AttemptRes.httpError (codes n) (reasons n))
    (h5 : ∀ n, 500 ≤ codes n ∧ codes n < 600) :
    fetch_url hash mimeG url tr retries
      = ({ url := url, ok := false, status := 0,
           error := "HTTPError " ++ toString (codes retries) ++ ": " ++ reasons retries },
         retries + 1, List.range' 1 retries)
  ∧ fetch hash mimeG tr2 url retries false
      = ({ url := url, ok := false, status := 0,
           error := "HTTP " ++ toString (codes retries) ++ " " ++ reasons retries },
         retries + 1, List.range' 1 (retries + 1))
  ∧ failureRowsOld [(fetch_url hash mimeG url tr retries).1]
      = [(url, 0, "HTTPError " ++ toString (codes retries) ++ ": " ++ reasons retries)]
  ∧ failureRows [(fetch hash mimeG tr2 url retries false).1]
      = [(url, 0, "HTTP " ++ toString (codes retries) ++ " " ++ reasons retries)] := by
  have h1 := fuGo_serverError hash mimeG url tr codes reasons htr h5 retries 0
  have h2 := fGo_serverError hash mimeG url tr2 codes reasons htr2 retries 0 0
  simp only [Nat.zero_add] at h1 h2
  have e1 : fetch_url hash mimeG url tr retries
      = ({ url := url, ok := false, status := 0,
           error := "HTTPError " ++ toString (codes retries) ++ ": " ++ reasons retries },
         retries + 1, List.range' 1 retries) := by
    rw [fetch_url, h1]
  have e2 : fetch hash mimeG tr2 url retries false
      = ({ url := url, ok := false, status := 0,
           error := "HTTP " ++ toString (codes retries) ++ " " ++ reasons retries },
         retries + 1, List.range' 1 (retries + 1)) := by
    rw [fetch, h2]
  refine ⟨e1, e2, ?_, ?_⟩
  · rw [e1]
    simp [failureRowsOld]
  · rw [e2]
    simp [failureRows]

/-- C5 witness: the two fetch loops at retries 2 against a constant 500
transport. -/
theorem retry_ceiling_backoff_witness :
    fetch_url hashConst mimeNone ("http://e/y") trServerErr 2
      = ({ url := "http://e/y", ok := false, status := 0,
           error := "HTTPError 500: Server Error" }, 3, [1, 2])
  ∧ fetch hashConst mimeNone trServerErr2 ("http://e/y") 2 false
      = ({ url := "http://e/y", ok := false, status := 0,
           error := "HTTP 500 Server Error" }, 3, [1, 2, 3]) := by
  have h := retry_ceiling_backoff hashConst mimeNone ("http://e/y") trServerErr
    trServerErr2 code500 reasonSE 2 (fun _ => rfl) (fun _ _ => rfl)
    (fun _ => ⟨Nat.le_refl 500, by simp [code500]⟩)
  constructor
  · rw [h.1]; decide
  · rw [h.2.1]; decide

theorem countDedupWrites_append (l1 l2 : List PEvent) (n : String) :
    countDedupWrites (l1 ++ l2) n = countDedupWrites l1 n + countDedupWrites l2 n := by
  simp [countDedupWrites, List.filter_append]

theorem dedupWriteStep_dedupNames_mono (s : PState) (name : String) (b : ByteSeq)
    (n : String) (h : s.dedupNames.contains n = true) :
    (dedupWriteStep s name b).dedupNames.contains n = true := by
  unfold dedupWriteStep
  split
  · exact h
  · simp only [List.contains_eq_any_beq, List.any_append] at h ⊢
    simp [h]

theorem dedupWriteStep_count_present (s : PState) (name : String) (b : ByteSeq)
    (n : String) (h : s.dedupNames.contains n = true) :
    countDedupWrites (dedupWriteStep s name b).events n = countDedupWrites s.events n := by
  unfold dedupWriteStep
  split
  · rfl
  · next hc =>
    rw [countDedupWrites_append]
    have hne : (name == n) = false := by
      rw [beq_eq_false_iff_ne]
      intro he
      subst he
      exact hc h
    simp [countDedupWrites, hne]

theorem dedupWriteStep_count_le (s : PState) (name : String) (b : ByteSeq)
    (n : String) :
    countDedupWrites (dedupWriteStep s name b).events n ≤ countDedupWrites s.events n + 1 := by
  unfold dedupWriteStep
  split
  · omega
  · rw [countDedupWrites_append]
    have hle : countDedupWrites [PEvent.writeDedup name b] n ≤ 1 := by
      by_cases hm : (name == n) = true <;> simp [countDedupWrites, hm]
    omega

theorem dedupWriteStep_count_absent_after (s : PState) (name : String) (b : ByteSeq)
    (n : String) (h : (dedupWriteStep s name b).dedupNames.contains n = false) :
    countDedupWrites (dedupWriteStep s name b).events n = countDedupWrites s.events n
      ∧ s.dedupNames.contains n = false := by
  unfold dedupWriteStep at h ⊢
  split at h
  · next hc => rw [if_pos hc]; exact ⟨rfl, h⟩
  · next hc =>
    rw [if_neg hc]
    have hmem : n ∉ s.dedupNames ++ [name] := by
      intro hn
      rw [Bool.eq_false_iff] at h
      exact h (by simpa using hn)
    have hn1 : n ∉ s.dedupNames := fun hn => hmem (List.mem_append.mpr (Or.inl hn))
    have hn2 : n ≠ name := by
      intro he
      exact hmem (List.mem_append.mpr (Or.inr (by simp [he])))
    have hne : (name == n) = false := by
      rw [beq_eq_false_iff_ne]
      exact fun he => hn2 he.symm
    constructor
    · rw [countDedupWrites_append]
      simp [countDedupWrites, hne]
    · rw [Bool.eq_false_iff]
      intro hcon
      exact hn1 (by simpa using hcon)

theorem rawWriteStep_dedup_invariant (s : PState) (name : String) (b : ByteSeq) :
    (rawWriteStep s name b).dedupNames = s.dedupNames
      ∧ ∀ n, countDedupWrites (rawWriteStep s name b).events n
          = countDedupWrites s.events n := by
  unfold rawWriteStep
  split
  · exact ⟨rfl, fun n => rfl⟩
  · refine ⟨rfl, fun n => ?_⟩
    rw [countDedupWrites_append]
    simp [countDedupWrites]

theorem persistOkStep_dedupNames (hb : String) (s : PState) (url : String)
    (r : DLResult) (b : ByteSeq) :
    (persistOkStep hb s url r b).dedupNames
      = (dedupWriteStep s (r.sha1 ++ r.ext) b).dedupNames :=
  (rawWriteStep_dedup_invariant (dedupWriteStep s (r.sha1 ++ r.ext) b) _ b).1

theorem persistOkStep_count (hb : String) (s : PState) (url : String)
    (r : DLResult) (b : ByteSeq) (n : String) :
    countDedupWrites (persistOkStep hb s url r b).events n
      = countDedupWrites (dedupWriteStep s (r.sha1 ++ r.ext) b).events n :=
  (rawWriteStep_dedup_invariant (dedupWriteStep s (r.sha1 ++ r.ext) b) _ b).2 n

theorem persistOkStep_facts (hb : String) (s : PState) (url : String)
    (r : DLResult) (b : ByteSeq) (n : String) :
    (s.dedupNames.contains n = true →
      (persistOkStep hb s url r b).dedupNames.contains n = true
        ∧ countDedupWrites (persistOkStep hb s url r b).events n
            = countDedupWrites s.events n)
  ∧ countDedupWrites (persistOkStep hb s url r b).events n
      ≤ countDedupWrites s.events n + 1
  ∧ ((persistOkStep hb s url r b).dedupNames.contains n = false →
      countDedupWrites (persistOkStep hb s url r b).events n
          = countDedupWrites s.events n
        ∧ s.dedupNames.contains n = false) := by
  rw [persistOkStep_dedupNames, persistOkStep_count]
  refine ⟨fun h => ?_, ?_, fun h => ?_⟩
  · exact ⟨dedupWriteStep_dedupNames_mono s _ b n h,
      dedupWriteStep_count_present s _ b n h⟩
  · exact dedupWriteStep_count_le s _ b n
  · exact dedupWriteStep_count_absent_after s _ b n h

theorem persistStep_facts (hb : String) (s : PState) (ur : String × DLResult)
    (n : String) :
    (s.dedupNames.contains n = true →
      (persistStep hb s ur).dedupNames.contains n = true
        ∧ countDedupWrites (persistStep hb s ur).events n = countDedupWrites s.events n)
  ∧ countDedupWrites (persistStep hb s ur).events n ≤ countDedupWrites s.events n + 1
  ∧ ((persistStep hb s ur).dedupNames.contains n = false →
      countDedupWrites (persistStep hb s ur).events n = countDedupWrites s.events n
        ∧ s.dedupNames.contains n = false) := by
  obtain ⟨url, r⟩ := ur
  simp only [persistStep]
  cases hd : r.data with
  | none => exact ⟨fun h => ⟨h, rfl⟩, Nat.le_add_right _ 1, fun h => ⟨rfl, h⟩⟩
  | some b =>
    rcases Bool.eq_false_or_eq_true r.ok with hok | hok
    · rw [hok]
      exact persistOkStep_facts hb s url r b n
    · rw [hok]
      exact ⟨fun h => ⟨h, rfl⟩, Nat.le_add_right _ 1, fun h => ⟨rfl, h⟩⟩

theorem persistDedupe_preserve (hb : String) (results : List (String × DLResult))
    (s : PState) (n : String) (h : s.dedupNames.contains n = true) :
    countDedupWrites (persistDedupe hb results s).events n = countDedupWrites s.events n
      ∧ (persistDedupe hb results s).dedupNames.contains n = true := by
  induction results generalizing s with
  | nil => exact ⟨rfl, h⟩
  | cons ur rest ih =>
    have hf := persistStep_facts hb s ur n
    have h1 := hf.1 h
    have h2 := ih (persistStep hb s ur) h1.1
    refine ⟨?_, ?_⟩
    · show countDedupWrites (persistDedupe hb rest (persistStep hb s ur)).events n
        = countDedupWrites s.events n
      rw [h2.1, h1.2]
    · show (persistDedupe hb rest (persistStep hb s ur)).dedupNames.contains n = true
      exact h2.2

theorem persistDedupe_once (hb : String) (results : List (String × DLResult))
    (s : PState) (n : String) :
    countDedupWrites (persistDedupe hb results s).events n
      ≤ countDedupWrites s.events n + 1 := by
  induction results generalizing s with
  | nil => simp [persistDedupe]
  | cons ur rest ih =>
    have hf := persistStep_facts hb s ur n
    by_cases hc : (persistStep hb s ur).dedupNames.contains n = true
    · have hpres := persistDedupe_preserve hb rest (persistStep hb s ur) n hc
      show countDedupWrites (persistDedupe hb rest (persistStep hb s ur)).events n
        ≤ countDedupWrites s.events n + 1
      rw [hpres.1]
      exact hf.2.1
    · have hc2 : (persistStep hb s ur).dedupNames.contains n = false :=
        Bool.eq_false_iff.mpr hc
      have h3 := hf.2.2 hc2
      show countDedupWrites (persistDedupe hb rest (persistStep hb s ur)).events n
        ≤ countDedupWrites s.events n + 1
      calc countDedupWrites (persistDedupe hb rest (persistStep hb s ur)).events n
          ≤ countDedupWrites (persistStep hb s ur).events n + 1 := ih _
        _ = countDedupWrites s.events n + 1 := by rw [h3.1]

/-- C1 (amended): for two successful fetches whose bodies are byte-identical
and whose inferred extensions agree, the derived stored filename (content hash
plus extension) is the same string; a dedup write is performed only when no
file of that name exists, so across a whole persist run each dedup filename is
written at most once, whatever the starting directory contents. -/
theorem store_idempotent (hash : ByteSeq → String) (mimeG : String → Option String)
    (u1 u2 : String) (st1 st2 : Nat) (ct1 ct2 : String) (b : ByteSeq)
    (hext : guess_ext mimeG u1 ct1 = guess_ext mimeG u2 ct2) :
    ((fetchOnce hash mimeG u1 (.success st1 ct1 b)).sha1
        ++ (fetchOnce hash mimeG u1 (.success st1 ct1 b)).ext
      = (fetchOnce hash mimeG u2 (.success st2 ct2 b)).sha1
        ++ (fetchOnce hash mimeG u2 (.success st2 ct2 b)).ext)
  ∧ (∀ (hb : String) (s : PState) (ur : String × DLResult) (n : String),
      s.dedupNames.contains n = true →
      countDedupWrites ((persistStep hb s ur).events) n = countDedupWrites s.events n)
  ∧ (∀ (hb : String) (results : List (String × DLResult))
        (d0 r0 : List String) (n : String),
      countDedupWrites ((persistDedupe hb results (initPState d0 r0)).events) n ≤ 1) := by
  refine ⟨?_, ?_, ?_⟩
  · show hash b ++ guess_ext mimeG u1 ct1 = hash b ++ guess_ext mimeG u2 ct2
    rw [hext]
  · intro hb s ur n h
    exact ((persistStep_facts hb s ur n).1 h).2
  · intro hb results d0 r0 n
    by_cases hc : d0.contains n = true
    · have h0 : (initPState d0 r0).dedupNames.contains n = true := hc
      have hp := (persistDedupe_preserve hb results (initPState d0 r0) n h0).1
      rw [hp]
      exact Nat.zero_le 1
    · have h1 := persistDedupe_once hb results (initPState d0 r0) n
      have h0 : countDedupWrites (initPState d0 r0).events n = 0 := rfl
      omega

/-- C1 counterexample: two successful fetches with byte-identical bodies but
different declared content types derive different stored filenames, and
persisting both performs two dedup writes, so byte-identical content does not
collapse to one stored file as the claim states. -/
theorem store_bytes_counterexample :
    (fetchOnce hashConst mimeNone ("http://a/x") (.success 200 ("image/png") [1, 2, 3])).data
      = (fetchOnce hashConst mimeNone ("http://b/y") (.success 200 ("image/jpeg") [1, 2, 3])).data
  ∧ (fetchOnce hashConst mimeNone ("http://a/x") (.success 200 ("image/png") [1, 2, 3])).ok = true
  ∧ (fetchOnce hashConst mimeNone ("http://b/y") (.success 200 ("image/jpeg") [1, 2, 3])).ok = true
  ∧ ((fetchOnce hashConst mimeNone ("http://a/x") (.success 200 ("image/png") [1, 2, 3])).sha1
        ++ (fetchOnce hashConst mimeNone ("http://a/x") (.success 200 ("image/png") [1, 2, 3])).ext
      ≠ (fetchOnce hashConst mimeNone ("http://b/y") (.success 200 ("image/jpeg") [1, 2, 3])).sha1
        ++ (fetchOnce hashConst mimeNone ("http://b/y") (.success 200 ("image/jpeg") [1, 2, 3])).ext)
  ∧ (persistDedupe ""
      [("http://a/x", fetchOnce hashConst mimeNone ("http://a/x")
          (.success 200 ("image/png") [1, 2, 3])),
       ("http://b/y", fetchOnce hashConst mimeNone ("http://b/y")
          (.success 200 ("image/jpeg") [1, 2, 3]))]
      (initPState [] [])).dedupWritten = 2 := by
  refine ⟨by decide, by decide, by decide, by decide, by decide⟩

/-- C1 witness: equal extensions give equal stored filenames, and a concrete
persist run writes a given dedup name at most once. -/
theorem store_idempotent_witness :
    ((fetchOnce hashConst mimeNone ("http://a/x.png") (.success 200 ("") [1, 2, 3])).sha1
        ++ (fetchOnce hashConst mimeNone ("http://a/x.png") (.success 200 ("") [1, 2, 3])).ext
      = (fetchOnce hashConst mimeNone ("http://b/y.png") (.success 201 ("") [1, 2, 3])).sha1
        ++ (fetchOnce hashConst mimeNone ("http://b/y.png") (.success 201 ("") [1, 2, 3])).ext)
  ∧ countDedupWrites ((persistDedupe ""
      [("http://a/x.png", fetchOnce hashConst mimeNone ("http://a/x.png")
          (.success 200 ("") [1, 2, 3])),
       ("http://b/y.png", fetchOnce hashConst mimeNone ("http://b/y.png")
          (.success 201 ("") [1, 2, 3]))]
      (initPState [] [])).events) ("h3.png") ≤ 1 := by
  constructor
  · exact (store_idempotent hashConst mimeNone ("http://a/x.png") ("http://b/y.png")
      200 201 ("") ("") [1, 2, 3] (by decide)).1
  · exact (store_idempotent hashConst mimeNone ("") ("") 0 0 ("") ("") [] rfl).2.2
      ("") _ [] [] ("h3.png")

theorem fetchOnce_ok_data (hash : ByteSeq → String) (mimeG : String → Option String)
    (u : String) (a : AttemptRes) (h : (fetchOnce hash mimeG u a).ok = true) :
    ∃ st ct b, a = AttemptRes.success st ct b
      ∧ (fetchOnce hash mimeG u a).data = some b := by
  cases a with
  | success st ct b => exact ⟨st, ct, b, rfl, rfl⟩
  | httpError c r => simp [fetchOnce] at h
  | sslError m => simp [fetchOnce] at h
  | urlError m => simp [fetchOnce] at h
  | otherError n m => simp [fetchOnce] at h

theorem fGo_ok_data (hash : ByteSeq → String) (mimeG : String → Option String)
    (tr : String → Nat → AttemptRes) (url : String) (force : Bool) :
    ∀ (left k i : Nat),
      (fGo hash mimeG tr url force k i left).1.ok = true →
      ∃ u m st ct b, tr u m = AttemptRes.success st ct b
        ∧ (fGo hash mimeG tr url force k i left).1.data = some b := by
  intro left
  induction left with
  | zero =>
    intro k i hok
    rw [fGo] at hok ⊢
    by_cases hres : (fetchOnce hash mimeG url (tr url i)).ok = true
    · simp only [if_pos hres] at hok ⊢
      obtain ⟨st, ct, b, ha, hdata⟩ := fetchOnce_ok_data hash mimeG url (tr url i) hres
      exact ⟨url, i, st, ct, b, ha, hdata⟩
    · simp only [if_neg hres] at hok ⊢
      by_cases hssl : (strContains (fetchOnce hash mimeG url (tr url i)).error ("SSL")
          && force && lowerStartsHttps url) = true
      · simp only [if_pos hssl] at hok ⊢
        by_cases hres2 : (fetchOnce hash mimeG (toHttpUrl url)
            (tr (toHttpUrl url) (i + 1))).ok = true
        · simp only [if_pos hres2] at hok ⊢
          obtain ⟨st, ct, b, ha, hdata⟩ :=
            fetchOnce_ok_data hash mimeG (toHttpUrl url) (tr (toHttpUrl url) (i + 1)) hres2
          exact ⟨toHttpUrl url, i + 1, st, ct, b, ha, hdata⟩
        · simp only [if_neg hres2] at hok
          simp at hok
      · simp only [if_neg hssl] at hok
        simp at hok
  | succ l ih =>
    intro k i hok
    rw [fGo] at hok ⊢
    by_cases hres : (fetchOnce hash mimeG url (tr url i)).ok = true
    · simp only [if_pos hres] at hok ⊢
      obtain ⟨st, ct, b, ha, hdata⟩ := fetchOnce_ok_data hash mimeG url (tr url i) hres
      exact ⟨url, i, st, ct, b, ha, hdata⟩
    · simp only [if_neg hres] at hok ⊢
      by_cases hssl : (strContains (fetchOnce hash mimeG url (tr url i)).error ("SSL")
          && force && lowerStartsHttps url) = true
      · simp only [if_pos hssl] at hok ⊢
        by_cases hres2 : (fetchOnce hash mimeG (toHttpUrl url)
            (tr (toHttpUrl url) (i + 1))).ok = true
        · simp only [if_pos hres2] at hok ⊢
          obtain ⟨st, ct, b, ha, hdata⟩ :=
            fetchOnce_ok_data hash mimeG (toHttpUrl url) (tr (toHttpUrl url) (i + 1)) hres2
          exact ⟨toHttpUrl url, i + 1, st, ct, b, ha, hdata⟩
        · simp only [if_neg hres2] at hok ⊢
          exact ih (k + 1) (i + 2) hok
      · simp only [if_neg hssl] at hok ⊢
        exact ih (k + 1) (i + 1) hok

theorem dedupWriteStep_events (s : PState) (name : String) (b : ByteSeq) :
    ∃ l, (dedupWriteStep s name b).events = s.events ++ l
      ∧ ∀ e ∈ l, e = PEvent.writeDedup name b := by
  unfold dedupWriteStep
  split
  · exact ⟨[], by simp, by simp⟩
  · exact ⟨[PEvent.writeDedup name b], rfl, by simp⟩

theorem rawWriteStep_events (s : PState) (name : String) (b : ByteSeq) :
    ∃ l, (rawWriteStep s name b).events = s.events ++ l
      ∧ ∀ e ∈ l, e = PEvent.writeRaw name b := by
  unfold rawWriteStep
  split
  · exact ⟨[], by simp, by simp⟩
  · exact ⟨[PEvent.writeRaw name b], rfl, by simp⟩

theorem persistStep_events (hb : String) (s : PState) (ur : String × DLResult) :
    ∃ l, (persistStep hb s ur).events = s.events ++ l
      ∧ ∀ e ∈ l, ∃ nm bts, (e = PEvent.writeDedup nm bts ∨ e = PEvent.writeRaw nm bts)
          ∧ ur.2.ok = true ∧ ur.2.data = some bts := by
  obtain ⟨url, r⟩ := ur
  simp only [persistStep]
  cases hd : r.data with
  | none => exact ⟨[], by simp, by simp⟩
  | some b =>
    rcases Bool.eq_false_or_eq_true r.ok with hok | hok
    · rw [hok]
      obtain ⟨l1, he1, hl1⟩ := dedupWriteStep_events s (r.sha1 ++ r.ext) b
      obtain ⟨l2, he2, hl2⟩ := rawWriteStep_events (dedupWriteStep s (r.sha1 ++ r.ext) b)
        (if safe_filename (urlsplitPath url) == "" then r.sha1 ++ r.ext
         else safe_filename (urlsplitPath url)) b
      refine ⟨l1 ++ l2, ?_, ?_⟩
      · show (persistOkStep hb s url r b).events = s.events ++ (l1 ++ l2)
        have hpe : (persistOkStep hb s url r b).events
            = (rawWriteStep (dedupWriteStep s (r.sha1 ++ r.ext) b)
                (if safe_filename (urlsplitPath url) == "" then r.sha1 ++ r.ext
                 else safe_filename (urlsplitPath url)) b).events := rfl
        rw [hpe, he2, he1, List.append_assoc]
      · intro e he
        rcases List.mem_append.mp he with h | h
        · exact ⟨r.sha1 ++ r.ext, b, Or.inl (hl1 e h), rfl, rfl⟩
        · exact ⟨(if safe_filename (urlsplitPath url) == "" then r.sha1 ++ r.ext
            else safe_filename (urlsplitPath url)), b, Or.inr (hl2 e h), rfl, rfl⟩
    · rw [hok]
      exact ⟨[], by simp, by simp⟩

theorem persistDedupe_events (hb : String) (results : List (String × DLResult)) :
    ∀ (s : PState), ∀ e ∈ (persistDedupe hb results s).events,
      e ∈ s.events ∨ ∃ ur ∈ results, ∃ nm bts,
        (e = PEvent.writeDedup nm bts ∨ e = PEvent.writeRaw nm bts)
          ∧ ur.2.ok = true ∧ ur.2.data = some bts := by
  induction results with
  | nil => intro s e he; exact Or.inl he
  | cons ur rest ih =>
    intro s e he
    have he2 := ih (persistStep hb s ur) e he
    rcases he2 with h | ⟨ur2, hur2, hrest⟩
    · obtain ⟨l, heq, hl⟩ := persistStep_events hb s ur
      rw [heq] at h
      rcases List.mem_append.mp h with h2 | h2
      · exact Or.inl h2
      · exact Or.inr ⟨ur, List.mem_cons_self ur rest, hl e h2⟩
    · exact Or.inr ⟨ur2, List.mem_cons_of_mem _ hur2, hrest⟩

/-- C3: fetch of 04_fetch_and_dedupe_images.py returns the response body with
every successful outcome, and its persist loop writes only bytes carried by ok
results, issuing no network request at all; but the persist loop of
04_fetch_and_dedup_images.py, which discarded the bytes, re-fetches each
successfully fetched URL twice (one fetch_url call and one direct urlopen,
here two netRequest events for one stored URL), contradicting the claim and
its own comment saying it does not re-download. -/
theorem fetch_returns_bytes_persist_no_refetch :
    (∀ (hash : ByteSeq → String) (mimeG : String → Option String)
        (tr : String → Nat → AttemptRes) (url : String) (retries : Nat) (force : Bool),
      (fetch hash mimeG tr url retries force).1.ok = true →
      ∃ u m st ct b, tr u m = AttemptRes.success st ct b
        ∧ (fetch hash mimeG tr url retries force).1.data = some b)
  ∧ (∀ (hb : String) (results : List (String × DLResult)) (d0 r0 : List String),
      ∀ e ∈ (persistDedupe hb results (initPState d0 r0)).events,
        isNetEvent e = false ∧ ∃ ur ∈ results, ∃ nm bts,
          (e = PEvent.writeDedup nm bts ∨ e = PEvent.writeRaw nm bts)
            ∧ ur.2.ok = true ∧ ur.2.data = some bts)
  ∧ (oldPersist hashConst mimeNone
      (fun _ _ => AttemptRes.success 200 ("image/png") [1, 2, 3])
      (fun _ => AttemptRes.success 200 ("image/png") [1, 2, 3])
      [("http://a/x.png", (fetch_url hashConst mimeNone ("http://a/x.png")
          (fun _ => AttemptRes.success 200 ("image/png") [1, 2, 3]) 2).1)]
      (initOPState [] [])).events.countP isNetEvent = 2 := by
  refine ⟨?_, ?_, by decide⟩
  · intro hash mimeG tr url retries force hok
    exact fGo_ok_data hash mimeG tr url force retries 0 0 hok
  · intro hb results d0 r0 e he
    have h := persistDedupe_events hb results (initPState d0 r0) e he
    rcases h with h | ⟨ur, hur, nm, bts, hor, hok, hdata⟩
    · simp [initPState] at h
    · refine ⟨?_, ur, hur, nm, bts, hor, hok, hdata⟩
      rcases hor with rfl | rfl <;> rfl

/-- C3 witness: a transport answering with a fixed PNG body; the fetch result
carries exactly those bytes. -/
theorem fetch_returns_bytes_witness :
    (fetch hashConst mimeNone trOk2 ("https://a/x.png") 0 false).1.data = some [9, 9] := by
  obtain ⟨u, m, st, ct, b, htr, hdata⟩ :=
    fetch_returns_bytes_persist_no_refetch.1 hashConst mimeNone trOk2
      ("https://a/x.png") 0 false (by decide)
  have hb2 : AttemptRes.success 200 ("image/png") [9, 9] = AttemptRes.success st ct b := htr
  injection hb2 with h1 h2 h3
  rw [hdata, ← h3]

theorem lookup_append_or (l1 l2 : List (String × RewriteEntry)) (u : String) :
    (l1 ++ l2).lookup u = (l1.lookup u).or (l2.lookup u) := by
  induction l1 with
  | nil => simp [List.lookup]
  | cons p l ih =>
    obtain ⟨k, v⟩ := p
    by_cases hk : (u == k) = true
    · simp [List.lookup, hk]
    · simp only [List.cons_append, List.lookup]
      rw [Bool.eq_false_iff.mpr (fun h => hk h)]
      exact ih

theorem lookup_setdefault (m : List (String × RewriteEntry)) (k : String)
    (v : RewriteEntry) (u : String) :
    (setdefault m k v).lookup u
      = (m.lookup u).or (if u = k then some v else none) := by
  unfold setdefault
  split
  · next hs =>
    by_cases huk : u = k
    · subst huk
      rcases Option.isSome_iff_exists.mp hs with ⟨w, hw⟩
      simp [hw]
    · simp [huk]
  · next hs =>
    rw [lookup_append_or]
    congr 1
    by_cases huk : u = k
    · subst huk; simp [List.lookup]
    · simp [List.lookup, huk]
      rw [Bool.eq_false_iff.mpr (fun h : (u == k) = true => huk (by simpa using h))]

theorem lookup_fieldsFold (v : RewriteEntry) (u : String) :
    ∀ (fs : List String) (m : List (String × RewriteEntry)),
      ((fs.foldl (fun m f => if f != "" then setdefault m f v else m) m).lookup u)
        = (m.lookup u).or (if u ≠ "" ∧ u ∈ fs then some v else none) := by
  intro fs
  induction fs with
  | nil => intro m; simp
  | cons f fs ih =>
    intro m
    simp only [List.foldl_cons]
    rw [ih]
    by_cases hf : (f != "") = true
    · rw [if_pos hf, lookup_setdefault, Option.or_assoc]
      congr 1
      by_cases huf : u = f
      · subst huf
        have hne : u ≠ "" := by simpa using hf
        simp [hne]
      · simp [huf, List.mem_cons]
    · rw [if_neg hf]
      congr 1
      have hf0 : f = "" := by simpa using hf
      subst hf0
      by_cases hu : u = ""
      · simp [hu]
      · simp [hu, List.mem_cons]

theorem lookup_expandRow (c2n : String → Option Target) (m : List (String × RewriteEntry))
    (row : OccRow) (u : String) :
    (expandRow c2n m row).lookup u = (m.lookup u).or (rowMaps c2n row u) := by
  by_cases hch : row.chosen = ""
  · simp [expandRow, rowMaps, hch]
  · have hch2 : (row.chosen != "") = true := by simpa using hch
    cases hc : c2n row.chosen with
    | none => simp [expandRow, rowMaps, hch, hch2, hc]
    | some t =>
      unfold expandRow rowMaps
      rw [if_pos hch2, hc, if_pos hch]
      exact lookup_fieldsFold (entryOf t row.kind) u (rowFields row) m

theorem lookup_buildMapping_aux (c2n : String → Option Target) (u : String) :
    ∀ (rows : List OccRow) (m : List (String × RewriteEntry)),
      ((rows.foldl (expandRow c2n) m).lookup u)
        = (m.lookup u).or (rows.findSome? (fun r => rowMaps c2n r u)) := by
  intro rows
  induction rows with
  | nil => intro m; simp
  | cons r rows ih =>
    intro m
    simp only [List.foldl_cons]
    rw [ih, lookup_expandRow, List.findSome?_cons]
    cases hr : rowMaps c2n r u with
    | some e => simp [Option.or_assoc]
    | none => simp

theorem lookup_buildMapping (c2n : String → Option Target) (rows : List OccRow)
    (u : String) :
    (buildMapping c2n rows).lookup u = rows.findSome? (fun r => rowMaps c2n r u) := by
  have h := lookup_buildMapping_aux c2n u rows []
  simpa [buildMapping] using h

theorem findSome?_isSome_of_mem {α β : Type} (f : α → Option β) :
    ∀ (l : List α) (a : α), a ∈ l → (f a).isSome → (l.findSome? f).isSome := by
  intro l
  induction l with
  | nil => intro a ha; simp at ha
  | cons x l ih =>
    intro a ha hf
    rw [List.findSome?_cons]
    cases hx : f x with
    | some e => simp
    | none =>
      rcases List.mem_cons.mp ha with rfl | ha2
      · rw [hx] at hf; simp at hf
      · exact ih a ha2 hf

theorem findSome?_append_or {α β : Type} (f : α → Option β) :
    ∀ (l1 l2 : List α),
      List.findSome? f (l1 ++ l2) = (List.findSome? f l1).or (List.findSome? f l2) := by
  intro l1
  induction l1 with
  | nil => intro l2; simp
  | cons x l ih =>
    intro l2
    simp only [List.cons_append, List.findSome?_cons]
    cases hx : f x with
    | some e => simp
    | none => exact ih l2

theorem findSome?_eq_some_split {α β : Type} (f : α → Option β) :
    ∀ (l : List α) (b : β), l.findSome? f = some b →
      ∃ l1 a l2, l = l1 ++ a :: l2 ∧ f a = some b ∧ ∀ x ∈ l1, f x = none := by
  intro l
  induction l with
  | nil => intro b h; simp at h
  | cons a l ih =>
    intro b h
    rw [List.findSome?_cons] at h
    cases hf : f a with
    | some e =>
      rw [hf] at h
      refine ⟨[], a, l, rfl, ?_, by simp⟩
      rw [hf]
      exact h
    | none =>
      rw [hf] at h
      obtain ⟨l1, x, l2, heq, hx, hpre⟩ := ih b h
      refine ⟨a :: l1, x, l2, by rw [heq]; rfl, hx, ?_⟩
      intro y hy
      rcases List.mem_cons.mp hy with rfl | hy2
      · exact hf
      · exact hpre y hy2

theorem buildMapping_filter_aux (c2n : String → Option Target) :
    ∀ (rows : List OccRow) (m : List (String × RewriteEntry)),
      rows.foldl (expandRow c2n) m
        = (rows.filter (fun r => r.chosen != "" && (c2n r.chosen).isSome)).foldl
            (expandRow c2n) m := by
  intro rows
  induction rows with
  | nil => intro m; rfl
  | cons r rows ih =>
    intro m
    by_cases hq : (r.chosen != "" && (c2n r.chosen).isSome) = true
    · rw [List.filter_cons, if_pos hq]
      simp only [List.foldl_cons]
      exact ih _
    · rw [List.filter_cons, if_neg hq]
      simp only [List.foldl_cons]
      have hskip : expandRow c2n m r = m := by
        unfold expandRow
        by_cases hch : (r.chosen != "") = true
        · cases hc : c2n r.chosen with
          | none => rw [if_pos hch]
          | some t =>
            exfalso
            apply hq
            rw [hch, hc]
            rfl
        · rw [if_neg hch]
      rw [hskip]
      exact ih m

/-- C9: mapping expansion.  Over any occurrence stream and stored table, every
non-empty URL column of a row whose chosen URL has a stored target has an
entry in the rewrite dictionary; an entry once present survives processing any
further rows unchanged (first writer wins); rows whose chosen URL is empty or
unstored contribute nothing (removing them leaves the dictionary identical);
every row whose chosen URL is stored contributes at least the entry for that
chosen URL; and the emitted table holds exactly the dictionary rows. -/
theorem mapping_expansion :
    (∀ (c2n : String → Option Target) (rows : List OccRow) (r : OccRow) (t : Target)
        (u : String),
      r ∈ rows → r.chosen ≠ "" → c2n r.chosen = some t → u ≠ "" → u ∈ rowFields r →
      ((buildMapping c2n rows).lookup u).isSome)
  ∧ (∀ (c2n : String → Option Target) (rows more : List OccRow) (u : String)
        (e : RewriteEntry),
      (buildMapping c2n rows).lookup u = some e →
      (buildMapping c2n (rows ++ more)).lookup u = some e)
  ∧ (∀ (c2n : String → Option Target) (rows : List OccRow),
      buildMapping c2n rows
        = buildMapping c2n (rows.filter (fun r => r.chosen != "" && (c2n r.chosen).isSome)))
  ∧ (∀ (c2n : String → Option Target) (rows : List OccRow) (r : OccRow) (t : Target),
      r ∈ rows → r.chosen ≠ "" → c2n r.chosen = some t →
      ((buildMapping c2n rows).lookup r.chosen).isSome)
  ∧ (∀ (c2n : String → Option Target) (rows : List OccRow) (x : String × RewriteEntry),
      x ∈ urlMapRows c2n rows ↔ x ∈ buildMapping c2n rows) := by
  have hmem : ∀ (c2n : String → Option Target) (rows : List OccRow) (r : OccRow)
      (t : Target) (u : String),
      r ∈ rows → r.chosen ≠ "" → c2n r.chosen = some t → u ≠ "" → u ∈ rowFields r →
      ((buildMapping c2n rows).lookup u).isSome := by
    intro c2n rows r t u hr hch hc hu hmem
    rw [lookup_buildMapping]
    apply findSome?_isSome_of_mem _ rows r hr
    unfold rowMaps
    rw [if_pos hch, hc]
    show (if u ≠ "" ∧ u ∈ rowFields r then some (entryOf t r.kind) else none).isSome = true
    rw [if_pos ⟨hu, hmem⟩]
    rfl
  refine ⟨hmem, ?_, ?_, ?_, ?_⟩
  · intro c2n rows more u e h
    rw [lookup_buildMapping] at h ⊢
    rw [findSome?_append_or, h]
    rfl
  · intro c2n rows
    exact buildMapping_filter_aux c2n rows []
  · intro c2n rows r t hr hch hc
    exact hmem c2n rows r t r.chosen hr hch hc hch (by simp [rowFields])
  · intro c2n rows x
    exact List.mem_mergeSort

/-- C9 witness: the thumbnail column of rowW is mapped, and the mapping
survives processing a second copy of the row. -/
theorem mapping_expansion_witness :
    ((buildMapping c2nW [rowW]).lookup ("http://a/thumb")).isSome
  ∧ (buildMapping c2nW ([rowW] ++ [rowW])).lookup ("http://a/thumb") = some eW := by
  constructor
  · exact mapping_expansion.1 c2nW [rowW] rowW ⟨"h.png", "", "h", 3, "image/png"⟩
      ("http://a/thumb") (by simp) (by decide) (by decide) (by decide) (by decide)
  · exact mapping_expansion.2.1 c2nW [rowW] [rowW] ("http://a/thumb") eW (by decide)

/-- C10: the kind column of a rewrite entry.  Whenever the dictionary maps an
original URL to an entry, that entry was produced by the first row (in input
order) among those expanded that carries the URL in one of its non-empty URL
columns, and the entry as a whole, its kind field included, is built from that
row's stored target and that row's chosen kind, whichever of the four URL
roles the URL played in the row. -/
theorem mapping_kind_first_row (c2n : String → Option Target) (rows : List OccRow)
    (u : String) (e : RewriteEntry)
    (h : (buildMapping c2n rows).lookup u = some e) :
    ∃ pre r post t, rows = pre ++ r :: post ∧ r.chosen ≠ "" ∧ c2n r.chosen = some t
      ∧ u ≠ "" ∧ u ∈ rowFields r ∧ e = entryOf t r.kind ∧ e.kind = r.kind
      ∧ ∀ r2 ∈ pre, rowMaps c2n r2 u = none := by
  rw [lookup_buildMapping] at h
  obtain ⟨pre, r, post, heq, hval, hpre⟩ := findSome?_eq_some_split _ rows e h
  unfold rowMaps at hval
  by_cases hch : r.chosen ≠ ""
  · rw [if_pos hch] at hval
    cases hc : c2n r.chosen with
    | none =>
      rw [hc] at hval
      have hval2 : (none : Option RewriteEntry) = some e := hval
      simp at hval2
    | some t =>
      rw [hc] at hval
      have hval2 : (if u ≠ "" ∧ u ∈ rowFields r then some (entryOf t r.kind) else none)
          = some e := hval
      by_cases hcond : u ≠ "" ∧ u ∈ rowFields r
      · rw [if_pos hcond] at hval2
        have he : e = entryOf t r.kind := ((Option.some.injEq _ _).mp hval2).symm
        exact ⟨pre, r, post, t, heq, hch, hc, hcond.1, hcond.2, he,
          by rw [he]; rfl, hpre⟩
      · rw [if_neg hcond] at hval2
        simp at hval2
  · rw [if_neg hch] at hval
    simp at hval

/-- C10 witness: the thumbnail URL of rowW is recorded with the kind of the
row that mapped it (full), not with the role the URL itself played. -/
theorem mapping_kind_first_row_witness :
    (buildMapping c2nW [rowW]).lookup ("http://a/thumb") = some eW
      ∧ eW.kind = rowW.kind := by
  refine ⟨by decide, ?_⟩
  obtain ⟨pre, r, post, t, heq, h1, h2, h3, h4, h5, hkind, h6⟩ :=
    mapping_kind_first_row c2nW [rowW] ("http://a/thumb") eW (by decide)
  have hr : r = rowW := by
    cases pre with
    | nil =>
      have := heq
      simp at this
      exact this.1.symm
    | cons a pre2 =>
      exfalso
      have hl := congrArg List.length heq
      simp at hl
  rw [hr] at hkind
  exact hkind

theorem ltChars_irrefl : ∀ a : List Char, ltChars a a = false := by
  intro a
  induction a with
  | nil => rfl
  | cons c cs ih => simp [ltChars, ih]

theorem ltChars_trans :
    ∀ a b c : List Char, ltChars a b = true → ltChars b c = true → ltChars a c = true := by
  intro a
  induction a with
  | nil =>
    intro b c hab hbc
    cases c with
    | nil =>
      cases b with
      | nil => simp [ltChars] at hbc
      | cons y ys => simp [ltChars] at hbc
    | cons z zs => rfl
  | cons x xs ih =>
    intro b c hab hbc
    cases b with
    | nil => simp [ltChars] at hab
    | cons y ys =>
      cases c with
      | nil => simp [ltChars] at hbc
      | cons z zs =>
        simp only [ltChars] at hab hbc ⊢
        by_cases hxy : x.toNat < y.toNat
        · by_cases hyz : y.toNat < z.toNat
          · rw [if_pos (Nat.lt_trans hxy hyz)]
          · by_cases hzy : z.toNat < y.toNat
            · rw [if_neg hyz, if_pos hzy] at hbc
              exact absurd hbc (by simp)
            · rw [if_pos (show x.toNat < z.toNat by omega)]
        · by_cases hyx : y.toNat < x.toNat
          · rw [if_neg hxy, if_pos hyx] at hab
            exact absurd hab (by simp)
          · rw [if_neg hxy, if_neg hyx] at hab
            by_cases hyz : y.toNat < z.toNat
            · rw [if_pos (show x.toNat < z.toNat by omega)]
            · by_cases hzy : z.toNat < y.toNat
              · rw [if_neg hyz, if_pos hzy] at hbc
                exact absurd hbc (by simp)
              · rw [if_neg hyz, if_neg hzy] at hbc
                rw [if_neg (show ¬ x.toNat < z.toNat by omega),
                  if_neg (show ¬ z.toNat < x.toNat by omega)]
                exact ih ys zs hab hbc

theorem ltChars_false_trans :
    ∀ a b c : List Char, ltChars a b = false → ltChars b c = false → ltChars a c = false := by
  intro a
  induction a with
  | nil =>
    intro b c hab hbc
    cases b with
    | cons y ys => simp [ltChars] at hab
    | nil =>
      cases c with
      | cons z zs => simp [ltChars] at hbc
      | nil => rfl
  | cons x xs ih =>
    intro b c hab hbc
    cases c with
    | nil => rfl
    | cons z zs =>
      cases b with
      | nil => simp [ltChars] at hbc
      | cons y ys =>
        simp only [ltChars] at hab hbc ⊢
        have hxy : ¬ x.toNat < y.toNat := by
          intro hxy
          rw [if_pos hxy] at hab
          exact absurd hab (by simp)
        by_cases hxz : x.toNat < z.toNat
        · by_cases hyz : y.toNat < z.toNat
          · rw [if_pos hyz] at hbc
            exact absurd hbc (by simp)
          · exact absurd hxz (by omega)
        · rw [if_neg hxz]
          by_cases hzx : z.toNat < x.toNat
          · rw [if_pos hzx]
          · rw [if_neg hzx]
            by_cases hyx : y.toNat < x.toNat
            · have hyz : y.toNat < z.toNat := by omega
              rw [if_pos hyz] at hbc
              exact absurd hbc (by simp)
            · rw [if_neg hxy, if_neg hyx] at hab
              rw [if_neg (show ¬ y.toNat < z.toNat by omega),
                if_neg (show ¬ z.toNat < y.toNat by omega)] at hbc
              exact ih ys zs hab hbc

theorem pickNewest_mem :
    ∀ (rs : List (List String)) (r0 : List String), pickNewest r0 rs ∈ r0 :: rs := by
  intro rs
  induction rs with
  | nil => intro r0; simp [pickNewest]
  | cons r1 rs ih =>
    intro r0
    show pickNewest (if pyStrLt (tsOf r0) (tsOf r1) then r1 else r0) rs ∈ r0 :: r1 :: rs
    have hsub : (if pyStrLt (tsOf r0) (tsOf r1) then r1 else r0) ∈ r0 :: r1 :: rs := by
      by_cases hlt : pyStrLt (tsOf r0) (tsOf r1) = true
      · rw [if_pos hlt]; simp
      · rw [if_neg (by simpa using hlt)]; simp
    rcases List.mem_cons.mp (ih (if pyStrLt (tsOf r0) (tsOf r1) then r1 else r0))
      with h2 | h2
    · rw [h2]; exact hsub
    · simp [h2]

theorem pickNewest_max :
    ∀ (rs : List (List String)) (r0 : List String),
      ∀ r ∈ r0 :: rs, pyStrLt (tsOf (pickNewest r0 rs)) (tsOf r) = false := by
  intro rs
  induction rs with
  | nil =>
    intro r0 r hr
    have h0 : r = r0 := by simpa using hr
    subst h0
    exact ltChars_irrefl _
  | cons r1 rs ih =>
    intro r0 r hr
    show pyStrLt (tsOf (pickNewest (if pyStrLt (tsOf r0) (tsOf r1) then r1 else r0) rs))
        (tsOf r) = false
    rcases List.mem_cons.mp hr with h0 | hr2
    · subst h0
      by_cases hlt : pyStrLt (tsOf r) (tsOf r1) = true
      · rw [if_pos hlt]
        have hres1 := ih r1 r1 (List.mem_cons_self r1 rs)
        rw [Bool.eq_false_iff]
        intro hcon
        have h2 : pyStrLt (tsOf (pickNewest r1 rs)) (tsOf r1) = true :=
          ltChars_trans _ _ _ hcon hlt
        rw [hres1] at h2
        exact absurd h2 (by simp)
      · rw [if_neg (by simpa using hlt)]
        exact ih r r (List.mem_cons_self r rs)
    · rcases List.mem_cons.mp hr2 with h1 | hr3
      · subst h1
        by_cases hlt : pyStrLt (tsOf r0) (tsOf r) = true
        · rw [if_pos hlt]
          exact ih r r (List.mem_cons_self r rs)
        · rw [if_neg (by simpa using hlt)]
          have hres0 := ih r0 r0 (List.mem_cons_self r0 rs)
          have hlt2 : pyStrLt (tsOf r0) (tsOf r) = false := Bool.eq_false_iff.mpr hlt
          exact ltChars_false_trans _ _ _ hres0 hlt2
      · by_cases hlt : pyStrLt (tsOf r0) (tsOf r1) = true
        · rw [if_pos hlt]
          exact ih r1 r (List.mem_cons_of_mem r1 hr3)
        · rw [if_neg (by simpa using hlt)]
          exact ih r0 r (List.mem_cons_of_mem r0 hr3)

theorem find_wayback_best_some (u : String) (j : List (List String)) :
    find_wayback_best u 200 (some j)
      = (match j.drop 1 with
         | [] => none
         | r0 :: rs =>
           if ((r0 :: rs).all fun r => decide (2 ≤ r.length)) = true
           then some (wbUrl (tsOf (pickNewest r0 rs)) u) else none) := by
  unfold find_wayback_best
  rw [if_neg (by simp)]

/-- C8: archive fallback resolution.  The CDX query is restricted to
snapshots recorded with status 200; when the parsed index holds at least one
snapshot row the resolver returns the id_ (unwrapped payload) retrieval URL
built from a row whose capture timestamp is maximal; when the response status
is not 200, the body does not parse, or no snapshot row exists, resolution
returns none, and the main loop then records the URL as a
no_wayback_snapshot failure after only the CDX request, with no snapshot
fetch. -/
theorem wayback_resolution :
    (∀ u : String, ∃ a b : String, cdxQuery u = a ++ "filter=statuscode:200" ++ b)
  ∧ (∀ ts u : String, wbUrl ts u = "https://web.archive.org/web/" ++ ts ++ "id_/" ++ u)
  ∧ (∀ (u : String) (j : List (List String)) (r0 : List String) (rs : List (List String)),
      j.drop 1 = r0 :: rs → (∀ r ∈ r0 :: rs, 2 ≤ r.length) →
      find_wayback_best u 200 (some j) = some (wbUrl (tsOf (pickNewest r0 rs)) u)
        ∧ pickNewest r0 rs ∈ r0 :: rs
        ∧ ∀ r ∈ r0 :: rs, pyStrLt (tsOf (pickNewest r0 rs)) (tsOf r) = false)
  ∧ (∀ (u : String) (st : Nat) (j : Option (List (List String))),
      st ≠ 200 → find_wayback_best u st j = none)
  ∧ (∀ u : String, find_wayback_best u 200 none = none)
  ∧ (∀ (u : String) (j : List (List String)),
      j.drop 1 = [] → find_wayback_best u 200 (some j) = none)
  ∧ (∀ (hash : ByteSeq → String) (mimeG : String → Option String)
        (hostBase u : String) (st : Nat) (j : Option (List (List String)))
        (wbGet : String → Nat × ByteSeq × String) (raws deds : List String),
      find_wayback_best u st j = none →
      processUrl hash mimeG hostBase u st j wbGet raws deds
        = (WbOutcome.miss, [WbEvent.cdxGet (cdxQuery u)],
           [(u, 0, "no_wayback_snapshot")])) := by
  refine ⟨?_, fun ts u => rfl, ?_, ?_, fun u => rfl, ?_, ?_⟩
  · intro u
    refine ⟨"https://web.archive.org/cdx/search/cdx?url=" ++ pyQuote u ++ "&output=json&",
      "&collapse=digest", ?_⟩
    have ht : "&output=json&filter=statuscode:200&collapse=digest"
        = "&output=json&" ++ ("filter=statuscode:200" ++ "&collapse=digest") := by decide
    show ("https://web.archive.org/cdx/search/cdx?url=" ++ pyQuote u)
        ++ "&output=json&filter=statuscode:200&collapse=digest" = _
    rw [ht]
    simp [String.append_assoc]
  · intro u j r0 rs hdrop hwf
    have hall : ((r0 :: rs).all fun r => decide (2 ≤ r.length)) = true := by
      rw [List.all_eq_true]
      intro r hr
      simpa using hwf r hr
    constructor
    · rw [find_wayback_best_some, hdrop]
      show (if ((r0 :: rs).all fun r => decide (2 ≤ r.length)) = true
          then some (wbUrl (tsOf (pickNewest r0 rs)) u) else none)
        = some (wbUrl (tsOf (pickNewest r0 rs)) u)
      rw [if_pos hall]
    · exact ⟨pickNewest_mem rs r0, pickNewest_max rs r0⟩
  · intro u st j hst
    unfold find_wayback_best
    rw [if_pos (by simpa using hst)]
  · intro u j hdrop
    rw [find_wayback_best_some, hdrop]
  · intro hash mimeG hostBase u st j wbGet raws deds hnone
    unfold processUrl
    rw [hnone]

/-- C8 witness: the newest of two 200 snapshots is chosen and rendered as an
id_ URL, and an empty index yields the miss outcome with the
no_wayback_snapshot ledger row and no snapshot fetch. -/
theorem wayback_resolution_witness :
    find_wayback_best ("http://a/x.png") 200
        (some [["k", "h", "o", "m", "s", "d", "l"],
               ["k", "20200101000000", "o", "m", "200", "d", "l"],
               ["k", "20210101000000", "o", "m", "200", "e", "l"]])
      = some ("https://web.archive.org/web/20210101000000id_/http://a/x.png")
  ∧ processUrl hashConst mimeNone ("") ("http://b/gone.png") 200 (some [["k"]])
      wbGetW [] []
      = (WbOutcome.miss, [WbEvent.cdxGet (cdxQuery ("http://b/gone.png"))],
         [("http://b/gone.png", 0, "no_wayback_snapshot")]) := by
  constructor
  · rw [(wayback_resolution.2.2.1 ("http://a/x.png")
      [["k", "h", "o", "m", "s", "d", "l"],
       ["k", "20200101000000", "o", "m", "200", "d", "l"],
       ["k", "20210101000000", "o", "m", "200", "e", "l"]]
      (["k", "20200101000000", "o", "m", "200", "d", "l"])
      ([["k", "20210101000000", "o", "m", "200", "e", "l"]])
      (by decide) (by decide)).1]
    decide
  · exact wayback_resolution.2.2.2.2.2.2 hashConst mimeNone ("") ("http://b/gone.png")
      200 (some [["k"]]) wbGetW [] [] (by decide)

theorem subGoF_nil : ∀ n : Nat, subGoF n [] = [] := by
  intro n
  cases n <;> rfl

theorem subGoF_fuel :
    ∀ (n m : Nat) (s : List Char), s.length ≤ n → s.length ≤ m →
      subGoF n s = subGoF m s := by
  intro n
  induction n with
  | zero =>
    intro m s hs _
    have hnil : s = [] := List.eq_nil_of_length_eq_zero (Nat.le_zero.mp hs)
    subst hnil
    rw [subGoF_nil, subGoF_nil]
  | succ n ih =>
    intro m s hn hm
    cases s with
    | nil => rw [subGoF_nil, subGoF_nil]
    | cons c cs =>
      cases m with
      | zero => simp at hm
      | succ m =>
        simp only [subGoF]
        have hcs : cs.length ≤ n := by simp at hn; omega
        have hcsm : cs.length ≤ m := by simp at hm; omega
        have hd : ∀ k, (cs.drop k).length ≤ n := fun k => by simp; omega
        have hdm : ∀ k, (cs.drop k).length ≤ m := fun k => by simp; omega
        rw [ih _ _ (hd 6) (hdm 6), ih _ _ (hd 5) (hdm 5), ih _ _ (hd 4) (hdm 4),
          ih _ _ hcs hcsm]

theorem matchAt_false_conds (c : Char) (cs : List Char)
    (h : matchAt (c :: cs) = false) :
    ((c == '-') && matchK 4 cs) = false ∧ ((c == '-') && matchK 3 cs) = false
      ∧ ((c == '-') && matchK 2 cs) = false := by
  simp only [matchAt, Bool.and_eq_false_iff] at h
  rcases h with h1 | h2
  · simp [h1]
  · simp only [Bool.or_eq_false_iff] at h2
    simp [h2.1.1, h2.1.2, h2.2]

theorem subGoF_skip :
    ∀ (a s : List Char) (n : Nat),
      (∀ i, i < a.length → matchAt (List.drop i (a ++ s)) = false) →
      (a ++ s).length ≤ n →
      subGoF n (a ++ s) = a ++ subGoF (n - a.length) s := by
  intro a
  induction a with
  | nil => intro s n _ _; simp
  | cons c a' ih =>
    intro s n h hn
    have h0 : matchAt (c :: (a' ++ s)) = false := by
      have := h 0 (by simp)
      simpa using this
    obtain ⟨h4, h3, h2⟩ := matchAt_false_conds c (a' ++ s) h0
    cases n with
    | zero => simp at hn
    | succ n =>
      show subGoF (n + 1) (c :: (a' ++ s)) = (c :: a') ++ subGoF (n + 1 - (c :: a').length) s
      simp only [subGoF, h4, h3, h2, if_false]
      have hshift : ∀ i, i < a'.length → matchAt (List.drop i (a' ++ s)) = false := by
        intro i hi
        have := h (i + 1) (by simp; omega)
        simpa using this
      have hlen : (a' ++ s).length ≤ n := by simp at hn ⊢; omega
      rw [ih s n hshift hlen]
      have he : n + 1 - (c :: a').length = n - a'.length := by
        simp only [List.length_cons]
        omega
      rw [he]
      rfl

theorem isDig_false_of_isWch (c : Char) (h : isWch c = true) : isDig c = false := by
  rcases (Bool.or_eq_true _ _).mp h with h1 | h1
  · have hc : c = 'w' := by simpa using h1
    subst hc
    decide
  · have hc : c = 'W' := by simpa using h1
    subst hc
    decide

theorem matchK_exact (ds : List Char) (wc ic : Char) (r : List Char)
    (hds : ds.all isDig = true) (hw : isWch wc = true) (hi : isIch ic = true)
    (hla : lookaheadOk r = true) :
    matchK ds.length (ds ++ wc :: ic :: r) = true := by
  unfold matchK
  rw [List.take_left, List.drop_left]
  simp [hds, hw, hi, hla]

theorem matchK_over (ds : List Char) (wc ic : Char) (r : List Char) (d : Nat)
    (hw : isWch wc = true) (hd : 1 ≤ d) :
    matchK (ds.length + d) (ds ++ wc :: ic :: r) = false := by
  unfold matchK
  rw [List.take_append]
  have hwdig : isDig wc = false := isDig_false_of_isWch wc hw
  cases d with
  | zero => omega
  | succ d2 =>
    simp [List.take_succ_cons, hwdig]

theorem subGoF_match (ds : List Char) (wc ic : Char) (r : List Char) (n : Nat)
    (hds : ds.all isDig = true) (h2 : 2 ≤ ds.length) (h4 : ds.length ≤ 4)
    (hw : isWch wc = true) (hi : isIch ic = true) (hla : lookaheadOk r = true) :
    subGoF (n + 1) ('-' :: (ds ++ wc :: ic :: r)) = popupChars ++ subGoF n r := by
  have hm := matchK_exact ds wc ic r hds hw hi hla
  have hlen : ds.length = 2 ∨ ds.length = 3 ∨ ds.length = 4 := by omega
  rcases hlen with hl | hl | hl
  · have hm2 : matchK 2 (ds ++ wc :: ic :: r) = true := by rwa [hl] at hm
    have hm3 : matchK 3 (ds ++ wc :: ic :: r) = false := by
      have := matchK_over ds wc ic r 1 hw (by omega)
      rw [hl] at this
      exact this
    have hm4 : matchK 4 (ds ++ wc :: ic :: r) = false := by
      have := matchK_over ds wc ic r 2 hw (by omega)
      rw [hl] at this
      exact this
    have hdrop : (ds ++ wc :: ic :: r).drop 4 = r := by
      rw [show (4 : Nat) = ds.length + 2 by omega, List.drop_append]
      rfl
    simp only [subGoF, hm2, hm3, hm4, beq_self_eq_true, Bool.true_and, hdrop]
    simp
  · have hm3 : matchK 3 (ds ++ wc :: ic :: r) = true := by rwa [hl] at hm
    have hm4 : matchK 4 (ds ++ wc :: ic :: r) = false := by
      have := matchK_over ds wc ic r 1 hw (by omega)
      rw [hl] at this
      exact this
    have hdrop : (ds ++ wc :: ic :: r).drop 5 = r := by
      rw [show (5 : Nat) = ds.length + 2 by omega, List.drop_append]
      rfl
    simp only [subGoF, hm3, hm4, beq_self_eq_true, Bool.true_and, hdrop]
    simp
  · have hm4 : matchK 4 (ds ++ wc :: ic :: r) = true := by rwa [hl] at hm
    have hdrop : (ds ++ wc :: ic :: r).drop 6 = r := by
      rw [show (6 : Nat) = ds.length + 2 by omega, List.drop_append]
      rfl
    simp only [subGoF, hm4, beq_self_eq_true, Bool.true_and, hdrop]
    simp

theorem subGoF_id (r : List Char) (n : Nat)
    (h : ∀ i, i < r.length → matchAt (List.drop i r) = false)
    (hn : r.length ≤ n) : subGoF n r = r := by
  have h2 : ∀ i, i < r.length → matchAt (List.drop i (r ++ [])) = false := by
    intro i hi
    rw [List.append_nil]
    exact h i hi
  have := subGoF_skip r [] n h2 (by simpa using hn)
  rw [List.append_nil] at this
  rw [this, subGoF_nil, List.append_nil]

theorem hasMatch_append_match :
    ∀ (a m : List Char), matchAt m = true → hasMatch (a ++ m) = true := by
  intro a
  induction a with
  | nil =>
    intro m hm
    cases m with
    | nil => simp [matchAt] at hm
    | cons c cs =>
      simp only [List.nil_append, hasMatch, hm, Bool.true_or]
  | cons c a' ih =>
    intro m hm
    have h1 : hasMatch (a' ++ m) = true := ih m hm
    simp only [List.cons_append, hasMatch, List.append_eq, h1, Bool.or_true]

theorem matchAt_head (ds : List Char) (wc ic : Char) (r : List Char)
    (hds : ds.all isDig = true) (h2 : 2 ≤ ds.length) (h4 : ds.length ≤ 4)
    (hw : isWch wc = true) (hi : isIch ic = true) (hla : lookaheadOk r = true) :
    matchAt ('-' :: (ds ++ wc :: ic :: r)) = true := by
  have hm := matchK_exact ds wc ic r hds hw hi hla
  have hlen : ds.length = 2 ∨ ds.length = 3 ∨ ds.length = 4 := by omega
  simp only [matchAt, beq_self_eq_true, Bool.true_and]
  rcases hlen with hl | hl | hl <;> rw [hl] at hm <;> simp [hm]

/-- C6: inferred full-size synthesis.  For a thumbnail whose tail matches
THUMB_RE — a hyphen, two to four digits, then wi, at end of string or right
before a question mark or hash — and with no earlier or later match,
infer_full_from_thumb replaces that suffix with the fixed token -popup; a
thumbnail whose characters contain no match yields none, and an absent
thumbnail yields none; and when no explicit full URL exists, the matching
occurrence is chosen with kind inferred_full. -/
theorem inferred_full_synthesis
    (a ds r : List Char) (wc ic : Char)
    (hds : ds.all isDig = true) (hlen2 : 2 ≤ ds.length) (hlen4 : ds.length ≤ 4)
    (hw : isWch wc = true) (hi : isIch ic = true) (hla : lookaheadOk r = true)
    (hpre : ∀ i, i < a.length →
      matchAt (List.drop i (a ++ '-' :: (ds ++ wc :: ic :: r))) = false)
    (hrest : ∀ i, i < r.length → matchAt (List.drop i r) = false) :
    (infer_full_from_thumb (some (String.mk (a ++ '-' :: (ds ++ wc :: ic :: r))))
        = some (String.mk (a ++ popupChars ++ r)))
      ∧ choose_download_url (some (String.mk (a ++ '-' :: (ds ++ wc :: ic :: r)))) none
          (some (String.mk (a ++ popupChars ++ r)))
          = (String.mk (a ++ popupChars ++ r), "inferred_full")
      ∧ (∀ s : String, hasMatch s.data = false → infer_full_from_thumb (some s) = none)
      ∧ infer_full_from_thumb none = none := by
  have hm : matchAt ('-' :: (ds ++ wc :: ic :: r)) = true :=
    matchAt_head ds wc ic r hds hlen2 hlen4 hw hi hla
  have hne : (String.mk (a ++ '-' :: (ds ++ wc :: ic :: r)) == "") = false := by
    rw [beq_eq_false_iff_ne]
    intro he
    have hdata : a ++ '-' :: (ds ++ wc :: ic :: r) = [] := by
      simpa using congrArg String.data he
    simp at hdata
  have hmatch : hasMatch (a ++ '-' :: (ds ++ wc :: ic :: r)) = true :=
    hasMatch_append_match a _ hm
  have hsub : subChars (a ++ '-' :: (ds ++ wc :: ic :: r)) = a ++ (popupChars ++ r) := by
    unfold subChars
    rw [subGoF_skip a ('-' :: (ds ++ wc :: ic :: r)) _ hpre (Nat.le_refl _)]
    have he1 : (a ++ '-' :: (ds ++ wc :: ic :: r)).length - a.length
        = (ds.length + 2 + r.length) + 1 := by
      simp [List.length_append]
      omega
    rw [he1, subGoF_match ds wc ic r _ hds hlen2 hlen4 hw hi hla,
      subGoF_id r _ hrest (by omega)]
  refine ⟨?_, ?_, ?_, ?_⟩
  · simp only [infer_full_from_thumb, hne, Bool.false_eq_true, if_false]
    rw [hmatch]
    simp [hsub, List.append_assoc]
  · have hne2 : String.mk (a ++ (popupChars ++ r)) ≠ "" := by
      intro he
      have hdata : a ++ (popupChars ++ r) = [] := by
        simpa using congrArg String.data he
      simp [popupChars] at hdata
    have hne3 : String.mk (a ++ '-' :: (ds ++ wc :: ic :: r)) ≠ "" := by
      intro he
      have hdata : a ++ '-' :: (ds ++ wc :: ic :: r) = [] := by
        simpa using congrArg String.data he
      simp at hdata
    simp [choose_download_url, truthy, hne2, hne3, List.append_assoc]
  · intro s hs
    simp [infer_full_from_thumb, hs]
  · rfl

/-- Witness for C6 at the thumbnail http://x/im-320wi, whose inferred full
URL is http://x/im-popup. -/
theorem inferred_full_synthesis_witness :
    infer_full_from_thumb (some (String.mk (("http://x/im").data
        ++ '-' :: ((['3', '2', '0']) ++ 'w' :: 'i' :: []))))
      = some (String.mk (("http://x/im").data ++ popupChars ++ []))
    ∧ infer_full_from_thumb none = none :=
  have h := inferred_full_synthesis (("http://x/im").data) (['3', '2', '0']) []
    'w' 'i' (by decide) (by decide) (by decide) (by decide) (by decide) (by decide)
    (by decide) (by decide)
  ⟨h.1, h.2.2.2⟩
